import Mathlib

/-!
Verification of the Upstalua backup tool (src/Upstalua.py) against its
specification.  The Python code is shallowly embedded: paths are lists of
path components (`os.path.join` appends components), the filesystem is a
finite association list from paths to byte contents, and directories exist
implicitly as proper prefixes of file paths (`os.makedirs` with
`exist_ok=True` is therefore a no-op in the model).  `shutil.copy2` copies
the byte content of a regular source file; metadata (mtime) is not
modelled.  `filecmp.cmp(a, b, shallow=False)` is modelled as equality of
the two byte contents, returning false when either path is not a regular
file, exactly as the Python library does for existing paths.
-/

namespace Upstalua

abbrev Path : Type := List String

abbrev Content : Type := List Nat

/-- `isPref p q` holds when the component list `p` is a prefix of `q`
(so `p` denotes `q` itself or an ancestor directory of `q`). -/
def isPref : Path → Path → Bool
  | [], _ => true
  | _ :: _, [] => false
  | a :: as, b :: bs => a == b && isPref as bs

/-- Association-list lookup of a file content by exact path. -/
def lookupP : List (Path × Content) → Path → Option Content
  | [], _ => none
  | (q, c) :: rest, p => if q = p then some c else lookupP rest p

/-- Overwrite the content stored at `p`, or append a new entry; mirrors a
filesystem write which keeps the directory listing otherwise intact. -/
def updFiles : List (Path × Content) → Path → Content → List (Path × Content)
  | [], p, c => [(p, c)]
  | (q, d) :: rest, p, c =>
      if q = p then (p, c) :: rest else (q, d) :: updFiles rest p c

/-- Whether some file path in the listing has `p` as a prefix. -/
def anyKeyPref : List (Path × Content) → Path → Bool
  | [], _ => false
  | e :: rest, p => isPref p e.1 || anyKeyPref rest p

/-- The filesystem: a finite map from file paths to byte contents.
Directories exist implicitly as prefixes of file paths. -/
structure FS where
  files : List (Path × Content)

/-- `os.path.exists`: `p` exists when it is a file or an (implicit)
ancestor directory of a file. -/
def FS.pathExists (fs : FS) (p : Path) : Bool :=
  anyKeyPref fs.files p

/-- Byte content of the regular file at `p`, if any. -/
def FS.lookup (fs : FS) (p : Path) : Option Content :=
  lookupP fs.files p

/-- `shutil.copy2 src dst`: writes the byte content of `src` to `dst`.
Faithful whenever `src` is a regular file (the only situation in which the
Python call returns instead of raising). -/
def FS.copy2 (fs : FS) (src dst : Path) : FS :=
  ⟨updFiles fs.files dst ((lookupP fs.files src).getD [])⟩

/-- `filecmp.cmp(source, dest, shallow=False)`: true exactly when both
paths are regular files with equal byte content (the Python function
returns `False` when either path is not a regular file). -/
def fileEqual (fs : FS) (s d : Path) : Bool :=
  match lookupP fs.files s, lookupP fs.files d with
  | some a, some b => a == b
  | _, _ => false

/-- `should_backup_file(source_path, dest_path)` from src/Upstalua.py:
returns `(True, "new")` when the destination does not exist,
`(True, "modified")` when the full-content comparison fails, and
`(False, "unchanged")` otherwise. -/
def should_backup_file (fs : FS) (source_path dest_path : Path) : Bool × String :=
  if fs.pathExists dest_path = false then (true, "new")
  else if fileEqual fs source_path dest_path = false then (true, "modified")
  else (false, "unchanged")

/-! ### The sync loop of `backup_game_files` -/

/-- Mutable state of the loop body of `backup_game_files`: the filesystem
plus the `saved_files` / `skipped_files` / `missing_files` accumulators.
A saved record is `(filename, reason, appid, game_name)`; skipped and
missing records are `(filename, appid, game_name)`. -/
structure BState where
  fs : FS
  saved : List (String × String × String × String)
  skipped : List (String × String × String)
  missing : List (String × String × String)

/-- One iteration of the plugins branch of the loop: exact filename
`<appid>.lua`, classify-and-copy when the source exists, record `missing`
otherwise. -/
def pluginsStep (source_folder backup_path : Path) (st : BState)
    (e : String × String) : BState :=
  let filename := e.1 ++ ".lua"
  let source_file := source_folder ++ [filename]
  let dest_file := backup_path ++ [filename]
  if st.fs.pathExists source_file then
    match should_backup_file st.fs source_file dest_file with
    | (true, reason) =>
        { st with fs := st.fs.copy2 source_file dest_file,
                  saved := st.saved ++ [(filename, reason, e.1, e.2)] }
    | (false, _) =>
        { st with skipped := st.skipped ++ [(filename, e.1, e.2)] }
  else
    { st with missing := st.missing ++ [(filename, e.1, e.2)] }

/-- `os.path.basename` of a component path. -/
def bn (q : Path) : String := q.getLastD ""

/-- Character-list prefix test. -/
def charPref : List Char → List Char → Bool
  | [], _ => true
  | _ :: _, [] => false
  | a :: as, b :: bs => a == b && charPref as bs

/-- Character-list substring test. -/
def charInfx (n : List Char) : List Char → Bool
  | [] => n.isEmpty
  | b :: bs => charPref n (b :: bs) || charInfx n bs

/-- Whether the file name starts with a dot (glob skips such names). -/
def startsWithDot (s : String) : Bool :=
  match s.data with
  | [] => false
  | c :: _ => c == '.'

/-- Whether the glob pattern `*<appid>*` matches the file name `nm`:
the name must contain `appid` as a substring, and glob never matches
names that start with a dot.  (Faithful for identifiers without glob
metacharacters, which is every identifier the tool handles.) -/
def globNameMatch (appid nm : String) : Bool :=
  !(startsWithDot nm) && charInfx appid.data nm.data

/-- `glob.glob(os.path.join(folder, "*" + appid + "*"))` restricted to
regular files (the loop applies `os.path.isfile` to each match): the file
paths directly inside `folder` whose basename matches the pattern. -/
def globList (fs : FS) (folder : Path) (appid : String) : List Path :=
  (fs.files.map (fun e => e.1)).filter
    (fun q => (folder.length + 1 == q.length) && (isPref folder q && globNameMatch appid (bn q)))

/-- One copy-or-skip of a glob match in the stats branch. -/
def statsFileStep (backup_path : Path) (appid gname : String) (st : BState)
    (source_file : Path) : BState :=
  let filename := bn source_file
  let dest_file := backup_path ++ [filename]
  match should_backup_file st.fs source_file dest_file with
  | (true, reason) =>
      { st with fs := st.fs.copy2 source_file dest_file,
                saved := st.saved ++ [(filename, reason, appid, gname)] }
  | (false, _) =>
      { st with skipped := st.skipped ++ [(filename, appid, gname)] }

/-- One iteration of the stats branch: expand the glob once, then
classify-and-copy every matching regular file.  Zero matches add no
record. -/
def statsStep (source_folder backup_path : Path) (st : BState)
    (e : String × String) : BState :=
  (globList st.fs source_folder e.1).foldl (statsFileStep backup_path e.1 e.2) st

/-- Tail of `_report_backup_results`: `False` only when nothing was saved,
nothing was skipped and the category is plugins; `True` otherwise. -/
def report_success (saved : List (String × String × String × String))
    (skipped : List (String × String × String)) (backup_type : String) : Bool :=
  if saved.isEmpty && skipped.isEmpty && backup_type == "plugins" then false else true

/-- Result of one `backup_game_files` call: the filesystem after the run,
the returned success flag, and the three record lists. -/
structure BackupRun where
  fs : FS
  success : Bool
  saved : List (String × String × String × String)
  skipped : List (String × String × String)
  missing : List (String × String × String)

def bpPlug : Path := ["backup", "config", "stplug-in"]

def bpStats : Path := ["backup", "appcache", "stats"]

/-- `backup_game_files(steam_path, appids_dict, backup_type)` from
src/Upstalua.py.  The appids dict is an insertion-ordered association
list.  Missing source folder short-circuits with `False`; an empty dict
is a no-op success; otherwise the per-appid loop runs and the result flag
comes from `_report_backup_results`. -/
def backup_game_files (fs : FS) (steam_path : Path)
    (appids_dict : List (String × String)) (backup_type : String) : BackupRun :=
  let source_folder :=
    if backup_type == "plugins" then steam_path ++ ["config", "stplug-in"]
    else steam_path ++ ["appcache", "stats"]
  let backup_path := if backup_type == "plugins" then bpPlug else bpStats
  if fs.pathExists source_folder = false then ⟨fs, false, [], [], []⟩
  else if appids_dict.isEmpty then ⟨fs, true, [], [], []⟩
  else
    let st :=
      if backup_type == "plugins" then
        appids_dict.foldl (pluginsStep source_folder backup_path) ⟨fs, [], [], []⟩
      else
        appids_dict.foldl (statsStep source_folder backup_path) ⟨fs, [], [], []⟩
    ⟨st.fs, report_success st.saved st.skipped backup_type, st.saved, st.skipped, st.missing⟩

/-! ### Basic lemmas about the filesystem model -/

@[simp]
theorem isPref_nil (q : Path) : isPref [] q = true := rfl

@[simp]
theorem isPref_cons (a b : String) (as bs : Path) :
    isPref (a :: as) (b :: bs) = (a == b && isPref as bs) := rfl

@[simp]
theorem isPref_cons_nil (a : String) (as : Path) : isPref (a :: as) [] = false := rfl

theorem isPref_refl (p : Path) : isPref p p = true := by
  induction p with
  | nil => rfl
  | cons a as ih => simp [ih]

theorem isPref_append (p t : Path) : isPref p (p ++ t) = true := by
  induction p with
  | nil => rfl
  | cons a as ih => simp [ih]

theorem isPref_length {p q : Path} (h : isPref p q = true) : p.length ≤ q.length := by
  induction p generalizing q with
  | nil => simp
  | cons a as ih =>
    cases q with
    | nil => simp [isPref] at h
    | cons b bs =>
      simp only [isPref_cons, Bool.and_eq_true] at h
      have := ih h.2
      simp only [List.length_cons]
      omega

theorem isPref_iff_append {p q : Path} : isPref p q = true ↔ ∃ t, p ++ t = q := by
  constructor
  · intro h
    induction p generalizing q with
    | nil => exact ⟨q, rfl⟩
    | cons a as ih =>
      cases q with
      | nil => simp [isPref] at h
      | cons b bs =>
        simp only [isPref_cons, Bool.and_eq_true, beq_iff_eq] at h
        obtain ⟨t, ht⟩ := ih h.2
        exact ⟨t, by simp [h.1, ht]⟩
  · rintro ⟨t, rfl⟩
    exact isPref_append p t

theorem isPref_eq_of_length {p q : Path} (h : isPref p q = true)
    (hl : p.length = q.length) : p = q := by
  obtain ⟨t, ht⟩ := isPref_iff_append.1 h
  have hlen := congrArg List.length ht
  rw [List.length_append] at hlen
  have ht0 : t.length = 0 := by omega
  have hnil : t = [] := List.eq_nil_of_length_eq_zero ht0
  simpa [hnil] using ht

@[simp]
theorem lookupP_nil (p : Path) : lookupP [] p = none := rfl

@[simp]
theorem lookupP_cons (q : Path) (c : Content) (rest : List (Path × Content)) (p : Path) :
    lookupP ((q, c) :: rest) p = if q = p then some c else lookupP rest p := rfl

theorem lookupP_upd (l : List (Path × Content)) (p q : Path) (c : Content) :
    lookupP (updFiles l p c) q = if q = p then some c else lookupP l q := by
  induction l with
  | nil =>
    rcases eq_or_ne q p with h | h
    · subst h; simp [updFiles]
    · simp [updFiles, h, Ne.symm h]
  | cons e rest ih =>
    obtain ⟨r, d⟩ := e
    rcases eq_or_ne r p with hrp | hrp
    · subst hrp
      rcases eq_or_ne q r with hqr | hqr
      · subst hqr; simp [updFiles]
      · simp [updFiles, hqr, Ne.symm hqr]
    · rcases eq_or_ne r q with hrq | hrq
      · subst hrq
        simp [updFiles, hrp, Ne.symm hrp]
      · simp [updFiles, hrp, hrq, ih]

theorem anyKeyPref_upd (l : List (Path × Content)) (p q : Path) (c : Content) :
    anyKeyPref (updFiles l p c) q = (isPref q p || anyKeyPref l q) := by
  induction l with
  | nil => simp [updFiles, anyKeyPref]
  | cons e rest ih =>
    obtain ⟨r, d⟩ := e
    rcases eq_or_ne r p with hrp | hrp
    · subst hrp
      simp only [updFiles, if_pos rfl, anyKeyPref]
      rw [← Bool.or_assoc, Bool.or_self]
    · simp only [updFiles, if_neg hrp, anyKeyPref, ih]
      rw [Bool.or_left_comm]

theorem mem_updFiles {l : List (Path × Content)} {p : Path} {c : Content}
    {e : Path × Content} (h : e ∈ updFiles l p c) : e ∈ l ∨ e = (p, c) := by
  induction l with
  | nil =>
    simp only [updFiles] at h
    simp at h
    exact Or.inr h
  | cons f rest ih =>
    obtain ⟨r, d⟩ := f
    rcases eq_or_ne r p with hrp | hrp
    · subst hrp
      simp only [updFiles, if_pos rfl] at h
      rcases List.mem_cons.1 h with h1 | h1
      · exact Or.inr h1
      · exact Or.inl (List.mem_cons_of_mem _ h1)
    · simp only [updFiles, if_neg hrp] at h
      rcases List.mem_cons.1 h with h1 | h1
      · exact Or.inl (h1 ▸ List.mem_cons_self _ _)
      · rcases ih h1 with h2 | h2
        · exact Or.inl (List.mem_cons_of_mem _ h2)
        · exact Or.inr h2

theorem pathExists_of_lookup_some {fs : FS} {p : Path} {c : Content}
    (h : fs.lookup p = some c) : fs.pathExists p = true := by
  obtain ⟨l⟩ := fs
  simp only [FS.lookup] at h
  simp only [FS.pathExists]
  induction l with
  | nil => simp at h
  | cons e rest ih =>
    obtain ⟨q, d⟩ := e
    simp only [lookupP_cons] at h
    by_cases hqp : q = p
    · subst hqp
      simp [anyKeyPref, isPref_refl]
    · simp [hqp] at h
      simp [anyKeyPref, ih h]

theorem lookup_isSome_of_memKey {l : List (Path × Content)} {p : Path}
    (h : ∃ c, (p, c) ∈ l) : ∃ c, lookupP l p = some c := by
  induction l with
  | nil => simp at h
  | cons e rest ih =>
    obtain ⟨q, d⟩ := e
    by_cases hqp : q = p
    · subst hqp
      exact ⟨d, by simp⟩
    · obtain ⟨c, hc⟩ := h
      simp at hc
      rcases hc with ⟨h1, h2⟩ | hc
      · exact absurd h1.symm hqp
      · obtain ⟨c', hc'⟩ := ih ⟨c, hc⟩
        exact ⟨c', by simp [hqp, hc']⟩

/-! ### Configuration load/save (`load_config`, `save_config`) -/

/-- The `appids` field of a persisted document: either the legacy bare
list of identifiers or the current identifier-to-label mapping. -/
inductive AppidsVal where
  | asList (l : List String)
  | asMap (m : List (String × String))
deriving DecidableEq

/-- The `cloud_backup` object of a persisted document.  Every field is
optional: a JSON object may omit any of them. -/
structure CloudDoc where
  enabled : Option Bool
  auto_upload : Option Bool
  remote_name : Option String
  remote_path : Option String
deriving DecidableEq

/-- A persisted configuration document: each top-level key may be absent.
Unrecognized extra keys are irrelevant to every observable behaviour and
are not modelled. -/
structure ConfigDoc where
  steam_path : Option String
  appids : Option AppidsVal
  cloud_backup : Option CloudDoc
deriving DecidableEq

/-- First-present choice, i.e. the effect of `dict.update` on one key. -/
def orD {α : Type} : Option α → Option α → Option α
  | some x, _ => some x
  | none, b => b

def default_cloud : CloudDoc :=
  { enabled := some true, auto_upload := some false,
    remote_name := some "gdrive", remote_path := some "gdrive:Upstalua" }

/-- The hardcoded `default_config` of `load_config`. -/
def default_config : ConfigDoc :=
  { steam_path := some "", appids := some (.asMap []),
    cloud_backup := some default_cloud }

/-- Python dict insert-or-overwrite for string maps (keeps insertion
order, overwrites in place). -/
def updKey : List (String × String) → String → String → List (String × String)
  | [], k, v => [(k, v)]
  | (k0, v0) :: rest, k, v =>
      if k0 = k then (k, v) :: rest else (k0, v0) :: updKey rest k v

/-- The dict comprehension `{appid: "Unknown" for appid in list}`. -/
def listToUnknownMap (l : List String) : List (String × String) :=
  l.foldl (fun m a => updKey m a "Unknown") []

/-- Legacy migration inside `load_config`: a bare-list `appids` value is
replaced by a mapping with every label `"Unknown"`. -/
def migrate_appids (u : ConfigDoc) : ConfigDoc :=
  match u.appids with
  | some (.asList l) => { u with appids := some (.asMap (listToUnknownMap l)) }
  | _ => u

/-- `default_config.update(user_config)`: a shallow merge — each
top-level key present in the user document replaces the default value
wholesale. -/
def mergeConfig (base user : ConfigDoc) : ConfigDoc :=
  { steam_path := orD user.steam_path base.steam_path,
    appids := orD user.appids base.appids,
    cloud_backup := orD user.cloud_backup base.cloud_backup }

/-- `load_config()` from src/Upstalua.py.  `stored = none` covers both an
absent config file and an unreadable/corrupt one (the broad `except`
returns the default). -/
def load_config (stored : Option ConfigDoc) : ConfigDoc :=
  match stored with
  | none => default_config
  | some u => mergeConfig default_config (migrate_appids u)

/-- Python falsiness of the `cloud_backup_settings` dict argument:
an empty dict is falsy, so `config['cloud_backup'].update(...)` is
skipped for it just as for `None`. -/
def cloudIsEmptyDict (c : CloudDoc) : Bool :=
  c.enabled.isNone && c.auto_upload.isNone &&
    c.remote_name.isNone && c.remote_path.isNone

/-- `config['cloud_backup'].update(cloud_backup_settings)`: keys present
in the settings overwrite, absent keys keep the loaded values. -/
def cloudUpdate (base upd : CloudDoc) : CloudDoc :=
  { enabled := orD upd.enabled base.enabled,
    auto_upload := orD upd.auto_upload base.auto_upload,
    remote_name := orD upd.remote_name base.remote_name,
    remote_path := orD upd.remote_path base.remote_path }

/-- `save_config(steam_path, appids_dict, cloud_backup_settings)` from
src/Upstalua.py, returning the document handed to `json.dump`.  The
loaded `cloud_backup` object is always present (see
`load_cloud_backup_isSome`), so the `getD` default is never used. -/
def save_config (stored : Option ConfigDoc) (steam_path : String)
    (appids_dict : List (String × String))
    (cloud_backup_settings : Option CloudDoc) : ConfigDoc :=
  let config := load_config stored
  let config : ConfigDoc :=
    { config with steam_path := some steam_path,
                  appids := some (.asMap appids_dict) }
  match cloud_backup_settings with
  | none => config
  | some cs =>
      if cloudIsEmptyDict cs then config
      else { config with
               cloud_backup := some (cloudUpdate (config.cloud_backup.getD default_cloud) cs) }

/-! ### Steam API lookup (`get_game_name`) -/

/-- JSON values, as produced by `response.json()`. -/
inductive JVal where
  | jnull
  | jbool (b : Bool)
  | jnum (n : Int)
  | jstr (s : String)
  | jarr (xs : List JVal)
  | jobj (fields : List (String × JVal))

/-- Python `==` between a JSON value and a string (used by `in` on a
list): true only for an equal string. -/
def jvalEqStr (v : JVal) (s : String) : Bool :=
  match v with
  | .jstr t => t == s
  | _ => false

def lookupJ : List (String × JVal) → String → Option JVal
  | [], _ => none
  | (k0, v0) :: rest, k => if k0 = k then some v0 else lookupJ rest k

/-- The Python exceptions that can arise while navigating the parsed
response.  `KeyError` is caught by `get_game_name`; `TypeError` is not. -/
inductive PyExc where
  | keyError
  | typeError
deriving DecidableEq

/-- Python `key in v`: key membership for dicts, `==`-membership for
lists, substring test for strings, `TypeError` for other values. -/
def pyContains (v : JVal) (k : String) : Except PyExc Bool :=
  match v with
  | .jobj fs => .ok (fs.any (fun e => e.1 == k))
  | .jarr xs => .ok (xs.any (fun x => jvalEqStr x k))
  | .jstr s => .ok (charInfx k.data s.data)
  | _ => .error .typeError

/-- Python `v[k]` with a string key: dict lookup (`KeyError` when the key
is absent), `TypeError` for every non-dict value. -/
def pyGetItem (v : JVal) (k : String) : Except PyExc JVal :=
  match v with
  | .jobj fs =>
      match lookupJ fs k with
      | some x => .ok x
      | none => .error .keyError
  | _ => .error .typeError

/-- Python truthiness of a JSON value. -/
def pyTruthy : JVal → Bool
  | .jnull => false
  | .jbool b => b
  | .jnum n => n != 0
  | .jstr s => !s.isEmpty
  | .jarr xs => !xs.isEmpty
  | .jobj fs => !fs.isEmpty

/-- The body of the `try` block of `get_game_name` applied to the parsed
response: `if str(appid) in data and data[str(appid)]['success']:
return data[str(appid)]['data']['name']` else `return "Unknown"`. -/
def get_game_name_body (appid : String) (data : JVal) : Except PyExc JVal :=
  match pyContains data appid with
  | .error e => .error e
  | .ok false => .ok (.jstr "Unknown")
  | .ok true =>
      match pyGetItem data appid with
      | .error e => .error e
      | .ok entry =>
          match pyGetItem entry "success" with
          | .error e => .error e
          | .ok succ =>
              if pyTruthy succ then
                match pyGetItem data appid with
                | .error e => .error e
                | .ok entry2 =>
                    match pyGetItem entry2 "data" with
                    | .error e => .error e
                    | .ok d => pyGetItem d "name"
              else .ok (.jstr "Unknown")

/-- Outcome of the HTTP exchange, before navigation. -/
inductive ApiResp where
  | reqError
  | badJson
  | body (v : JVal)

/-- `get_game_name(appid)` from src/Upstalua.py as a function of the
service's response.  `requests` failures and bad HTTP statuses raise
`RequestException` (caught); an undecodable body raises `ValueError`
(caught); during navigation `KeyError`/`ValueError` are caught but
`TypeError` is not and propagates to the caller. -/
def get_game_name (appid : String) (resp : ApiResp) : Except PyExc JVal :=
  match resp with
  | .reqError => .ok (.jstr "Unknown")
  | .badJson => .ok (.jstr "Unknown")
  | .body data =>
      match get_game_name_body appid data with
      | .ok v => .ok v
      | .error .keyError => .ok (.jstr "Unknown")
      | .error .typeError => .error .typeError

/-! ### Path validation (`validate_steam_path`) -/

def STEAM_ESSENTIALS : List String := ["steam.exe", "steamapps", "userdata", "config"]

/-- A single quote character, written by code point. -/
def squote : String := String.singleton (Char.ofNat 39)

/-- Python `repr` of a list of strings, as interpolated by
`f"Missing: {missing}"`. -/
def pyListRepr (l : List String) : String :=
  "[" ++ String.intercalate ", " (l.map (fun s => squote ++ s ++ squote)) ++ "]"

/-- `validate_steam_path(path)` from src/Upstalua.py.  `none` stands for
a falsy path (`None` or the empty string). -/
def validate_steam_path (fs : FS) (path : Option Path) : Bool × String :=
  match path with
  | none => (false, "Path does not exist")
  | some p =>
      if fs.pathExists p = false then (false, "Path does not exist")
      else
        let missing := STEAM_ESSENTIALS.filter (fun f => !(fs.pathExists (p ++ [f])))
        (missing.length == 0,
          if missing.length == 0 then "Valid" else "Missing: " ++ pyListRepr missing)

/-! ### Helper lemmas for the configuration model -/

theorem updKey_not_mem (m : List (String × String)) (a v : String)
    (h : ∀ e ∈ m, e.1 ≠ a) : updKey m a v = m ++ [(a, v)] := by
  induction m with
  | nil => rfl
  | cons e rest ih =>
    obtain ⟨k, w⟩ := e
    have hk : k ≠ a := h (k, w) (List.mem_cons_self _ _)
    simp [updKey, hk, ih (fun e he => h e (List.mem_cons_of_mem _ he))]

theorem listToUnknownMap_eq (l : List String) (hnd : l.Nodup) :
    listToUnknownMap l = l.map (fun a => (a, "Unknown")) := by
  suffices h : ∀ (l : List String), l.Nodup → ∀ m : List (String × String),
      (∀ e ∈ m, e.1 ∉ l) →
      l.foldl (fun m a => updKey m a "Unknown") m = m ++ l.map (fun a => (a, "Unknown")) by
    simpa using h l hnd [] (by simp)
  intro l
  induction l with
  | nil => intro _ m _; simp
  | cons a rest ih =>
    intro hnd m hm
    simp only [List.foldl_cons]
    have h1 : updKey m a "Unknown" = m ++ [(a, "Unknown")] :=
      updKey_not_mem m a _ (fun e he hea => hm e he (hea ▸ List.mem_cons_self _ _))
    rw [h1, ih (List.Nodup.of_cons hnd) (m ++ [(a, "Unknown")]) ?_]
    · simp
    · intro e he
      rcases List.mem_append.1 he with he' | he'
      · exact fun hra => hm e he' (List.mem_cons_of_mem _ hra)
      · simp at he'
        rw [he']
        exact (List.nodup_cons.1 hnd).1

theorem migrate_appids_cloud (u : ConfigDoc) :
    (migrate_appids u).cloud_backup = u.cloud_backup := by
  rcases u with ⟨sp, ap, cb⟩
  rcases ap with _ | v
  · rfl
  · rcases v with ⟨l⟩ | ⟨m⟩ <;> rfl

theorem migrate_appids_steam (u : ConfigDoc) :
    (migrate_appids u).steam_path = u.steam_path := by
  rcases u with ⟨sp, ap, cb⟩
  rcases ap with _ | v
  · rfl
  · rcases v with ⟨l⟩ | ⟨m⟩ <;> rfl

theorem load_cloud_backup_isSome (stored : Option ConfigDoc) :
    ∃ c, (load_config stored).cloud_backup = some c := by
  cases stored with
  | none => exact ⟨default_cloud, rfl⟩
  | some u =>
    show ∃ c, orD (migrate_appids u).cloud_backup (some default_cloud) = some c
    rw [migrate_appids_cloud]
    cases u.cloud_backup with
    | none => exact ⟨default_cloud, rfl⟩
    | some c => exact ⟨c, rfl⟩

theorem cloudIsEmptyDict_eq_true {c : CloudDoc} (h : cloudIsEmptyDict c = true) :
    c.enabled = none ∧ c.auto_upload = none ∧ c.remote_name = none ∧ c.remote_path = none := by
  rcases c with ⟨e, a, rn, rp⟩
  simp only [cloudIsEmptyDict, Bool.and_eq_true, Option.isNone_iff_eq_none] at h
  exact ⟨h.1.1.1, h.1.1.2, h.1.2, h.2⟩

/-! ### C1: change-detector classification -/

/-- C1: for every (source, dest) pair with a readable source, the
classification of `should_backup_file` is `new` when the destination is
absent, `unchanged` when the destination holds exactly the source's byte
content, and `modified` when any byte differs — a function of exact
content only (the model has no sizes or timestamps at all). -/
theorem should_backup_file_classification (fs : FS) (s d : Path) (c : Content)
    (hs : fs.lookup s = some c) :
    (fs.pathExists d = false → should_backup_file fs s d = (true, "new")) ∧
    (∀ dc, fs.lookup d = some dc → dc = c → should_backup_file fs s d = (false, "unchanged")) ∧
    (∀ dc, fs.lookup d = some dc → dc ≠ c → should_backup_file fs s d = (true, "modified")) := by
  refine ⟨?_, ?_, ?_⟩
  · intro h
    simp [should_backup_file, h]
  · intro dc hd hdc
    subst hdc
    have hex := pathExists_of_lookup_some hd
    simp only [FS.lookup] at hs hd
    simp [should_backup_file, hex, fileEqual, hs, hd]
  · intro dc hd hdc
    have hex := pathExists_of_lookup_some hd
    simp only [FS.lookup] at hs hd
    have hne : (c == dc) = false := by
      rw [beq_eq_false_iff_ne]
      exact fun h => hdc h.symm
    simp [should_backup_file, hex, fileEqual, hs, hd, hne]

/-- C1 witness: a concrete three-file filesystem exercising all three
classifications. -/
theorem should_backup_file_classification_witness :
    should_backup_file ⟨[(["s"], [1]), (["d"], [1]), (["e"], [2])]⟩ ["s"] ["x"] = (true, "new") ∧
    should_backup_file ⟨[(["s"], [1]), (["d"], [1]), (["e"], [2])]⟩ ["s"] ["d"] = (false, "unchanged") ∧
    should_backup_file ⟨[(["s"], [1]), (["d"], [1]), (["e"], [2])]⟩ ["s"] ["e"] = (true, "modified") := by
  refine ⟨?_, ?_, ?_⟩
  · exact (should_backup_file_classification
      ⟨[(["s"], [1]), (["d"], [1]), (["e"], [2])]⟩ ["s"] ["x"] [1] (by decide)).1 (by decide)
  · exact (should_backup_file_classification
      ⟨[(["s"], [1]), (["d"], [1]), (["e"], [2])]⟩ ["s"] ["d"] [1] (by decide)).2.1 [1] (by decide) rfl
  · exact (should_backup_file_classification
      ⟨[(["s"], [1]), (["d"], [1]), (["e"], [2])]⟩ ["s"] ["e"] [1] (by decide)).2.2 [2] (by decide) (by decide)

/-! ### C6: legacy appids migration -/

/-- C6 counterexample: the claim fails for a legacy list with a repeated
identifier — two list entries collapse to a single mapping key, so the
mapping does not have size N. -/
theorem load_config_legacy_dup_counterexample :
    (load_config (some ⟨none, some (.asList ["10", "10"]), none⟩)).appids
      = some (.asMap [("10", "Unknown")]) ∧
    ¬ ∃ m, (load_config (some ⟨none, some (.asList ["10", "10"]), none⟩)).appids
        = some (.asMap m) ∧ m.length = (["10", "10"] : List String).length := by
  have h1 : (load_config (some ⟨none, some (.asList ["10", "10"]), none⟩)).appids
      = some (.asMap [("10", "Unknown")]) := by decide
  refine ⟨h1, ?_⟩
  rintro ⟨m, hm, hlen⟩
  rw [h1] at hm
  simp only [Option.some.injEq, AppidsVal.asMap.injEq] at hm
  rw [← hm] at hlen
  simp at hlen

/-- C6 (amended): for a legacy bare list of N *distinct* identifiers,
`load_config` yields an `appids` mapping of size N in which every listed
identifier maps to `"Unknown"` and every value is `"Unknown"`. -/
theorem load_config_legacy_migration (u : ConfigDoc) (l : List String)
    (hap : u.appids = some (.asList l)) (hnd : l.Nodup) :
    ∃ m, (load_config (some u)).appids = some (.asMap m) ∧
      m.length = l.length ∧
      (∀ a ∈ l, (a, "Unknown") ∈ m) ∧
      (∀ e ∈ m, e.2 = "Unknown") := by
  refine ⟨l.map (fun a => (a, "Unknown")), ?_, by simp, ?_, ?_⟩
  · show orD (migrate_appids u).appids (some (.asMap [])) = _
    simp [migrate_appids, hap, listToUnknownMap_eq l hnd, orD]
  · intro a ha
    exact List.mem_map.2 ⟨a, ha, rfl⟩
  · intro e he
    obtain ⟨a, _, rfl⟩ := List.mem_map.1 he
    rfl

/-- C6 witness: the migration applied to a two-element distinct list. -/
theorem load_config_legacy_migration_witness :
    ∃ m, (load_config (some ⟨none, some (.asList ["10", "20"]), none⟩)).appids
        = some (.asMap m) ∧
      m.length = 2 ∧
      (∀ a ∈ (["10", "20"] : List String), (a, "Unknown") ∈ m) ∧
      (∀ e ∈ m, e.2 = "Unknown") := by
  have h := load_config_legacy_migration ⟨none, some (.asList ["10", "20"]), none⟩
    ["10", "20"] rfl (by decide)
  simpa using h

/-! ### C7: default backfill on load -/

/-- C7 counterexample: the merge is shallow.  A stored document whose
`cloud_backup` object is present but lacks `auto_upload` yields a loaded
config in which `auto_upload` is absent rather than backfilled with its
default value `False`. -/
theorem load_config_shallow_merge_counterexample :
    ((load_config (some ⟨none, none, some ⟨some false, none, none, none⟩⟩)).cloud_backup.bind
        CloudDoc.auto_upload) = none ∧
    ((load_config (some ⟨none, none, some ⟨some false, none, none, none⟩⟩)).cloud_backup.bind
        CloudDoc.auto_upload) ≠ some false := by
  refine ⟨by decide, by decide⟩

/-- C7 (amended): `load_config` backfills every missing *top-level* field
with its default — in particular a document without a `cloud_backup`
object gets the complete default object — but the merge is shallow: a
`cloud_backup` object present in the document replaces the default
wholesale, so its own missing subfields are not backfilled. -/
theorem load_config_shallow_merge (stored : Option ConfigDoc) :
    ((load_config stored).steam_path.isSome ∧ (load_config stored).appids.isSome ∧
      (load_config stored).cloud_backup.isSome) ∧
    (stored = none → load_config stored = default_config) ∧
    (∀ u, stored = some u →
      (u.steam_path = none → (load_config stored).steam_path = some "") ∧
      (u.appids = none → (load_config stored).appids = some (.asMap [])) ∧
      (u.cloud_backup = none → (load_config stored).cloud_backup = some default_cloud) ∧
      (∀ c, u.cloud_backup = some c → (load_config stored).cloud_backup = some c)) := by
  cases stored with
  | none =>
    refine ⟨⟨rfl, rfl, rfl⟩, fun _ => rfl, ?_⟩
    intro u hu
    cases hu
  | some u =>
    obtain ⟨sp, ap, cb⟩ := u
    refine ⟨?_, ?_, ?_⟩
    · refine ⟨?_, ?_, ?_⟩ <;>
      · rcases ap with _ | v
        · cases sp <;> cases cb <;> rfl
        · rcases v with ⟨l⟩ | ⟨m⟩ <;> cases sp <;> cases cb <;> rfl
    · intro h
      cases h
    · intro u' hu'
      injection hu' with hu''
      subst hu''
      refine ⟨?_, ?_, ?_, ?_⟩
      · intro hsp
        have hsp' : sp = none := hsp
        show orD (migrate_appids ⟨sp, ap, cb⟩).steam_path (some "") = some ""
        rw [migrate_appids_steam]
        show orD sp (some "") = some ""
        rw [hsp']
        rfl
      · intro hap
        have hap' : ap = none := hap
        subst hap'
        rfl
      · intro hcb
        have hcb' : cb = none := hcb
        show orD (migrate_appids ⟨sp, ap, cb⟩).cloud_backup (some default_cloud) = some default_cloud
        rw [migrate_appids_cloud]
        show orD cb (some default_cloud) = some default_cloud
        rw [hcb']
        rfl
      · intro c hc
        have hc' : cb = some c := hc
        show orD (migrate_appids ⟨sp, ap, cb⟩).cloud_backup (some default_cloud) = some c
        rw [migrate_appids_cloud]
        show orD cb (some default_cloud) = some c
        rw [hc']
        rfl

/-- C7 witness: a document with no `cloud_backup` object is backfilled
with the complete default object. -/
theorem load_config_shallow_merge_witness :
    (load_config (some ⟨none, none, none⟩)).cloud_backup = some default_cloud := by
  have h := load_config_shallow_merge (some ⟨none, none, none⟩)
  exact (h.2.2 ⟨none, none, none⟩ rfl).2.2.1 rfl

/-! ### C8: metadata lookup fallback -/

/-- C8 counterexample: a response body that parses to a JSON array
containing the identifier string passes the `in` test, and the subsequent
string indexing of a list raises a `TypeError`, which neither `except`
clause catches — the exception propagates to the caller. -/
theorem get_game_name_typeerror_counterexample :
    get_game_name "730" (.body (.jarr [.jstr "730"])) = .error .typeError := by
  rfl

/-- C8 (amended): `get_game_name` returns the entry's name on success and
`"Unknown"` on a network/HTTP failure, an undecodable body, or any
`KeyError` while navigating (absent entry, missing keys); those are the
only caught exceptions, so the only exception that can ever propagate is
a `TypeError` from an unexpectedly-shaped body. -/
theorem lookupJ_some_any {fs : List (String × JVal)} {k : String} {v : JVal}
    (h : lookupJ fs k = some v) : fs.any (fun e => e.1 == k) = true := by
  induction fs with
  | nil => cases h
  | cons e rest ih =>
    obtain ⟨k0, v0⟩ := e
    simp only [lookupJ] at h
    by_cases hk : k0 = k
    · subst hk
      simp
    · rw [if_neg hk] at h
      simp [ih h]

theorem get_game_name_total_fallback (appid : String) (resp : ApiResp) :
    (∀ e, get_game_name appid resp = .error e → e = .typeError) ∧
    (resp = .reqError → get_game_name appid resp = .ok (.jstr "Unknown")) ∧
    (resp = .badJson → get_game_name appid resp = .ok (.jstr "Unknown")) ∧
    (∀ data, resp = .body data → get_game_name_body appid data = .error .keyError →
      get_game_name appid resp = .ok (.jstr "Unknown")) ∧
    (∀ data, resp = .body data → pyContains data appid = .ok false →
      get_game_name appid resp = .ok (.jstr "Unknown")) ∧
    (∀ fields entry succ, resp = .body (.jobj fields) →
      lookupJ fields appid = some entry →
      pyGetItem entry "success" = .ok succ → pyTruthy succ = false →
      get_game_name appid resp = .ok (.jstr "Unknown")) ∧
    (∀ fields entry succ d nmv, resp = .body (.jobj fields) →
      lookupJ fields appid = some entry →
      pyGetItem entry "success" = .ok succ → pyTruthy succ = true →
      pyGetItem entry "data" = .ok d → pyGetItem d "name" = .ok nmv →
      get_game_name appid resp = .ok nmv) := by
  cases resp with
  | reqError =>
    refine ⟨?_, ?_, ?_, ?_, ?_, ?_, ?_⟩
    · intro e h
      cases h
    · intro _
      rfl
    · intro h
      cases h
    · intro d h
      cases h
    · intro d h
      cases h
    · intro fields entry succ h
      cases h
    · intro fields entry succ d nmv h
      cases h
  | badJson =>
    refine ⟨?_, ?_, ?_, ?_, ?_, ?_, ?_⟩
    · intro e h
      cases h
    · intro h
      cases h
    · intro _
      rfl
    · intro d h
      cases h
    · intro d h
      cases h
    · intro fields entry succ h
      cases h
    · intro fields entry succ d nmv h
      cases h
  | body data =>
    refine ⟨?_, ?_, ?_, ?_, ?_, ?_, ?_⟩
    · intro e h
      simp only [get_game_name] at h
      cases hb : get_game_name_body appid data with
      | ok v =>
        rw [hb] at h
        cases h
      | error e1 =>
        rw [hb] at h
        cases e1 with
        | keyError => cases h
        | typeError =>
          cases h
          rfl
    · intro h
      cases h
    · intro h
      cases h
    · intro d hd hbody
      injection hd with hd1
      subst hd1
      simp only [get_game_name, hbody]
    · intro d hd hcf
      injection hd with hd1
      rw [← hd1] at hcf
      have hbody : get_game_name_body appid data = .ok (.jstr "Unknown") := by
        unfold get_game_name_body
        rw [hcf]
      simp only [get_game_name, hbody]
    · intro fields entry succ hresp hlk hsucc htr
      injection hresp with hresp1
      subst hresp1
      have hc : pyContains (.jobj fields) appid = .ok (true : Bool) := by
        simp [pyContains, lookupJ_some_any hlk]
      have hg : pyGetItem (.jobj fields) appid = .ok entry := by
        simp [pyGetItem, hlk]
      have hbody : get_game_name_body appid (.jobj fields) = .ok (.jstr "Unknown") := by
        unfold get_game_name_body
        simp [hc, hg, hsucc, htr]
      simp only [get_game_name, hbody]
    · intro fields entry succ d nmv hresp hlk hsucc htr hdd hn
      injection hresp with hresp1
      subst hresp1
      have hc : pyContains (.jobj fields) appid = .ok (true : Bool) := by
        simp [pyContains, lookupJ_some_any hlk]
      have hg : pyGetItem (.jobj fields) appid = .ok entry := by
        simp [pyGetItem, hlk]
      have hbody : get_game_name_body appid (.jobj fields) = .ok nmv := by
        unfold get_game_name_body
        simp [hc, hg, hsucc, htr, hdd, hn]
      simp only [get_game_name, hbody]

/-- C8 witness: the fallback on a network failure, the entry's name
returned on a successful response, `"Unknown"` for a falsy success flag,
and `"Unknown"` for an absent entry. -/
theorem get_game_name_total_fallback_witness :
    get_game_name "1" ApiResp.reqError = .ok (.jstr "Unknown") ∧
    get_game_name "730" (.body (.jobj [("730", .jobj [("success", .jbool true),
        ("data", .jobj [("name", .jstr "CS")])])])) = .ok (.jstr "CS") ∧
    get_game_name "730" (.body (.jobj [("730", .jobj [("success", .jbool false)])]))
      = .ok (.jstr "Unknown") ∧
    get_game_name "730" (.body (.jobj [("10", .jnum 5)])) = .ok (.jstr "Unknown") := by
  refine ⟨?_, ?_, ?_, ?_⟩
  · exact (get_game_name_total_fallback "1" .reqError).2.1 rfl
  · exact (get_game_name_total_fallback "730" _).2.2.2.2.2.2
      [("730", .jobj [("success", .jbool true), ("data", .jobj [("name", .jstr "CS")])])]
      (.jobj [("success", .jbool true), ("data", .jobj [("name", .jstr "CS")])])
      (.jbool true) (.jobj [("name", .jstr "CS")]) (.jstr "CS")
      rfl rfl rfl rfl rfl rfl
  · exact (get_game_name_total_fallback "730" _).2.2.2.2.2.1
      [("730", .jobj [("success", .jbool false)])]
      (.jobj [("success", .jbool false)]) (.jbool false)
      rfl rfl rfl rfl
  · exact (get_game_name_total_fallback "730" _).2.2.2.2.1
      (.jobj [("10", .jnum 5)]) rfl rfl

/-! ### C9: path validation contract -/

/-- C9: `validate_steam_path` returns ok exactly when the path is truthy,
exists, and directly contains every entry of `STEAM_ESSENTIALS`; on
success the reason is `"Valid"`, and on failure with an existing root the
reason enumerates exactly the missing required entries in Python list
syntax. -/
theorem validate_steam_path_essentials (fs : FS) (p : Path)
    (hex : fs.pathExists p = true) :
    validate_steam_path fs (some p)
      = (((STEAM_ESSENTIALS.filter (fun f => !(fs.pathExists (p ++ [f])))).length == 0 : Bool),
         if ((STEAM_ESSENTIALS.filter (fun f => !(fs.pathExists (p ++ [f])))).length == 0 : Bool)
         then "Valid"
         else "Missing: "
           ++ pyListRepr (STEAM_ESSENTIALS.filter (fun f => !(fs.pathExists (p ++ [f]))))) := by
  simp only [validate_steam_path]
  rw [hex]
  rfl

theorem validate_steam_path_contract (fs : FS) (po : Option Path) :
    ((validate_steam_path fs po).1 = true ↔
      ∃ p, po = some p ∧ fs.pathExists p = true ∧
        ∀ f ∈ STEAM_ESSENTIALS, fs.pathExists (p ++ [f]) = true) ∧
    ((validate_steam_path fs po).1 = true → (validate_steam_path fs po).2 = "Valid") ∧
    (∀ p, po = some p → fs.pathExists p = true → (validate_steam_path fs po).1 = false →
      (validate_steam_path fs po).2 =
        "Missing: " ++ pyListRepr
          (STEAM_ESSENTIALS.filter (fun f => !(fs.pathExists (p ++ [f]))))) := by
  cases po with
  | none =>
    refine ⟨?_, ?_, ?_⟩
    · simp [validate_steam_path]
    · intro h
      simp [validate_steam_path] at h
    · intro p hp
      cases hp
  | some p =>
    cases hex : fs.pathExists p with
    | false =>
      refine ⟨?_, ?_, ?_⟩
      · simp [validate_steam_path, hex]
      · intro h
        simp [validate_steam_path, hex] at h
      · intro p1 hp1 hex1
        injection hp1 with hp2
        subst hp2
        rw [hex1] at hex
        cases hex
    | true =>
      have hval := validate_steam_path_essentials fs p hex
      refine ⟨?_, ?_, ?_⟩
      · rw [hval]
        simp only [beq_iff_eq, List.length_eq_zero, List.filter_eq_nil_iff]
        constructor
        · intro h
          refine ⟨p, rfl, hex, ?_⟩
          intro f hf
          have := h f hf
          simpa using this
        · rintro ⟨p1, hp1, -, hall⟩
          injection hp1 with hp2
          subst hp2
          intro f hf
          simp [hall f hf]
      · intro h
        rw [hval] at h ⊢
        show (if ((STEAM_ESSENTIALS.filter (fun f => !(fs.pathExists (p ++ [f])))).length == 0 : Bool)
              then "Valid"
              else "Missing: "
                ++ pyListRepr (STEAM_ESSENTIALS.filter (fun f => !(fs.pathExists (p ++ [f]))))) = "Valid"
        rw [if_pos h]
      · intro p1 hp1 _ hfalse
        injection hp1 with hp2
        subst hp2
        rw [hval] at hfalse ⊢
        show (if ((STEAM_ESSENTIALS.filter (fun f => !(fs.pathExists (p ++ [f])))).length == 0 : Bool)
              then "Valid"
              else "Missing: "
                ++ pyListRepr (STEAM_ESSENTIALS.filter (fun f => !(fs.pathExists (p ++ [f]))))) = _
        rw [if_neg (fun htrue => by rw [htrue] at hfalse; cases hfalse)]

/-- C9 witness: the spec scenario — a root containing everything but
`steamapps` yields `(false, "Missing: ['steamapps']")` (the reason string
shown with Python list repr). -/
theorem validate_steam_path_contract_witness :
    (validate_steam_path
        ⟨[(["C", "steam.exe"], []), (["C", "userdata", "x"], []), (["C", "config", "y"], [])]⟩
        (some ["C"])).2 = "Missing: " ++ pyListRepr ["steamapps"] := by
  have h := validate_steam_path_contract
    ⟨[(["C", "steam.exe"], []), (["C", "userdata", "x"], []), (["C", "config", "y"], [])]⟩
    (some ["C"])
  have h2 := h.2.2 ["C"] rfl (by decide) (by decide)
  rw [h2]
  decide

/-! ### Path-aliasing lemmas for the sync engine -/

theorem isPref_trans {p q r : Path} (h1 : isPref p q = true) (h2 : isPref q r = true) :
    isPref p r = true := by
  obtain ⟨t, rfl⟩ := isPref_iff_append.1 h1
  obtain ⟨u, rfl⟩ := isPref_iff_append.1 h2
  rw [List.append_assoc]
  exact isPref_append p (t ++ u)

theorem exists_of_anyKeyPref {l : List (Path × Content)} {p : Path}
    (h : anyKeyPref l p = true) : ∃ e ∈ l, isPref p e.1 = true := by
  induction l with
  | nil => simp [anyKeyPref] at h
  | cons e rest ih =>
    simp only [anyKeyPref, Bool.or_eq_true] at h
    rcases h with h | h
    · exact ⟨e, List.mem_cons_self _ _, h⟩
    · obtain ⟨f, hf, hpf⟩ := ih h
      exact ⟨f, List.mem_cons_of_mem _ hf, hpf⟩

/-- A flat folder: every file at or below `folder` lies directly in it. -/
def FlatAt (fs : FS) (folder : Path) : Prop :=
  ∀ e ∈ fs.files, isPref folder e.1 = true → e.1.length = folder.length + 1

/-- A well-formed backup tree: every file at or below `backup` sits at
depth 4 (`backup/<c1>/<c2>/<name>`), so the two category destination
folders exist as directories (never as files) and every destination path
is a regular file or absent — exactly the situations in which
`os.makedirs` and `shutil.copy2` behave as modelled. -/
def BFlat (fs : FS) : Prop :=
  ∀ e ∈ fs.files, isPref ["backup"] e.1 = true → e.1.length = 4

theorem flat_exists_lookup {fs : FS} {folder : Path} (hf : FlatAt fs folder) (x : String)
    (hex : fs.pathExists (folder ++ [x]) = true) :
    ∃ c, lookupP fs.files (folder ++ [x]) = some c := by
  obtain ⟨e, hel, hpref⟩ := exists_of_anyKeyPref hex
  have hfolder : isPref folder e.1 = true := isPref_trans (isPref_append folder [x]) hpref
  have hlen := hf e hel hfolder
  have heq : folder ++ [x] = e.1 := isPref_eq_of_length hpref (by simp [hlen])
  refine lookup_isSome_of_memKey ⟨e.2, ?_⟩
  rw [heq]
  simpa using hel

theorem strAppend_right_cancel {a b s : String} (h : a ++ s = b ++ s) : a = b := by
  obtain ⟨as⟩ := a
  obtain ⟨bs⟩ := b
  obtain ⟨ss⟩ := s
  have h2 : as ++ ss = bs ++ ss := by injection h
  have h3 : as = bs := by
    have hl : as.length = bs.length := by
      have := congrArg List.length h2
      simp at this
      omega
    exact List.append_inj_left h2 hl
  rw [h3]

/-- Path-aliasing dichotomy (equality form): a category source file path
equals a category destination file path exactly when the steam path is
the relative folder `backup` and the file names agree. -/
theorem destEqEq (c1 c2 : String) (sp : Path) (x y : String) :
    sp ++ [c1, c2, x] = ["backup", c1, c2, y] ↔ sp = ["backup"] ∧ x = y := by
  constructor
  · intro h
    have hlen : sp.length + 3 = 4 := by
      have := congrArg List.length h
      simpa using this
    match sp, hlen with
    | [s], _ =>
      simp only [List.cons_append, List.nil_append, List.cons.injEq, and_true] at h
      obtain ⟨h1, -, -, h4⟩ := h
      exact ⟨by rw [h1], h4⟩
  · rintro ⟨rfl, rfl⟩
    rfl

/-- Path-aliasing dichotomy (prefix form): the source file path is a
prefix of the destination file path only in the aliasing situation. -/
theorem destEqPref (c1 c2 : String) (h1 : c1 ≠ "backup") (sp : Path) (x y : String) :
    isPref (sp ++ [c1, c2, x]) ["backup", c1, c2, y] = true ↔ sp = ["backup"] ∧ x = y := by
  constructor
  · intro h
    have hlen := isPref_length h
    simp only [List.length_append] at hlen
    have hle : sp.length ≤ 1 := by simp at hlen; omega
    match sp, hle with
    | [], _ =>
      simp only [List.nil_append, isPref_cons, Bool.and_eq_true, beq_iff_eq] at h
      exact absurd h.1 h1
    | [s], _ =>
      have heq : [s] ++ [c1, c2, x] = ["backup", c1, c2, y] :=
        isPref_eq_of_length h (by simp)
      exact (destEqEq c1 c2 [s] x y).1 heq
  · rintro ⟨rfl, rfl⟩
    exact isPref_refl _
/-- Folder-aliasing dichotomy: a category source folder is a prefix of a
category destination file path only when the steam path is `backup`. -/
theorem folderPrefDest (c1 c2 : String) (h1 : c1 ≠ "backup") (h2 : c2 ≠ c1) (sp : Path)
    (y : String) :
    isPref (sp ++ [c1, c2]) ["backup", c1, c2, y] = true ↔ sp = ["backup"] := by
  constructor
  · intro h
    have hlen := isPref_length h
    have hle : sp.length ≤ 2 := by simp at hlen; omega
    match sp, hle with
    | [], _ =>
      simp only [List.nil_append, isPref_cons, Bool.and_eq_true, beq_iff_eq] at h
      exact absurd h.1 h1
    | [s], _ =>
      simp only [List.cons_append, List.nil_append, isPref_cons, Bool.and_eq_true,
        beq_iff_eq] at h
      rw [h.1]
    | [s, t], _ =>
      simp only [List.cons_append, List.nil_append, isPref_cons, Bool.and_eq_true,
        beq_iff_eq] at h
      exact absurd h.2.2.1 (Ne.symm h2)
  · rintro rfl
    show isPref (["backup", c1, c2] : Path) (["backup", c1, c2] ++ [y]) = true
    exact isPref_append _ _

theorem fileEqual_true {fs : FS} {s d : Path} (h : fileEqual fs s d = true) :
    ∃ a, lookupP fs.files s = some a ∧ lookupP fs.files d = some a := by
  unfold fileEqual at h
  cases hs : lookupP fs.files s with
  | none => rw [hs] at h; cases h
  | some a =>
    cases hd : lookupP fs.files d with
    | none => rw [hs, hd] at h; cases h
    | some b =>
      rw [hs, hd] at h
      have : a = b := by
        have := h
        simpa using this
      refine ⟨a, rfl, ?_⟩
      rw [this]

theorem fileEqual_self {fs : FS} {p : Path} {c : Content}
    (h : lookupP fs.files p = some c) : fileEqual fs p p = true := by
  unfold fileEqual
  rw [h]
  simp

/-- Exhaustive case analysis of `should_backup_file`. -/
theorem should_backup_cases (fs : FS) (s d : Path) :
    (fs.pathExists d = false ∧ should_backup_file fs s d = (true, "new")) ∨
    (fs.pathExists d = true ∧ fileEqual fs s d = false ∧
      should_backup_file fs s d = (true, "modified")) ∨
    (fs.pathExists d = true ∧ fileEqual fs s d = true ∧
      should_backup_file fs s d = (false, "unchanged")) := by
  unfold should_backup_file
  cases hd : fs.pathExists d with
  | false => exact Or.inl ⟨rfl, by simp⟩
  | true =>
    cases hfe : fileEqual fs s d with
    | false => exact Or.inr (Or.inl ⟨rfl, rfl, by simp [hfe]⟩)
    | true => exact Or.inr (Or.inr ⟨rfl, rfl, by simp [hfe]⟩)

/-! ### Plugins-loop characterization -/

/-- Source folder of the plugins category. -/
def pluginFolder (sp : Path) : Path := sp ++ ["config", "stplug-in"]

/-- Source file of one identifier in the plugins category. -/
def pluginSrc (sp : Path) (a : String) : Path := sp ++ ["config", "stplug-in", a ++ ".lua"]

/-- Destination file of one identifier in the plugins category. -/
def pluginDst (a : String) : Path := ["backup", "config", "stplug-in", a ++ ".lua"]

/-- Source folder of the stats category. -/
def statsFolder (sp : Path) : Path := sp ++ ["appcache", "stats"]

/-- The plugins loop of `backup_game_files` as a fold. -/
def plugFold (sp : Path) (l : List (String × String)) (st : BState) : BState :=
  l.foldl (pluginsStep (pluginFolder sp) bpPlug) st

/-- The stats loop of `backup_game_files` as a fold. -/
def statsFold (sp : Path) (l : List (String × String)) (st : BState) : BState :=
  l.foldl (statsStep (statsFolder sp) bpStats) st

theorem pluginSrc_def (sp : Path) (a : String) :
    pluginFolder sp ++ [a ++ ".lua"] = pluginSrc sp a := by
  simp [pluginSrc, pluginFolder]

theorem pluginDst_def (a : String) : bpPlug ++ [a ++ ".lua"] = pluginDst a := rfl

theorem pluginDst_inj {a b : String} (h : pluginDst a = pluginDst b) : a = b := by
  have h4 : a ++ ".lua" = b ++ ".lua" := by
    simpa [pluginDst] using h
  exact strAppend_right_cancel h4

theorem pluginSrcDst_eq {sp : Path} {a b : String} :
    pluginSrc sp a = pluginDst b ↔ sp = ["backup"] ∧ a = b := by
  rw [show pluginSrc sp a = sp ++ ["config", "stplug-in", a ++ ".lua"] from rfl,
    show pluginDst b = ["backup", "config", "stplug-in", b ++ ".lua"] from rfl,
    destEqEq]
  constructor
  · rintro ⟨h1, h2⟩
    exact ⟨h1, strAppend_right_cancel h2⟩
  · rintro ⟨h1, rfl⟩
    exact ⟨h1, rfl⟩

theorem pluginSrcDst_pref {sp : Path} {a b : String} :
    isPref (pluginSrc sp a) (pluginDst b) = true ↔ sp = ["backup"] ∧ a = b := by
  rw [show pluginSrc sp a = sp ++ ["config", "stplug-in", a ++ ".lua"] from rfl,
    show pluginDst b = ["backup", "config", "stplug-in", b ++ ".lua"] from rfl,
    destEqPref "config" "stplug-in" (by decide) sp _ _]
  constructor
  · rintro ⟨h1, h2⟩
    exact ⟨h1, strAppend_right_cancel h2⟩
  · rintro ⟨h1, rfl⟩
    exact ⟨h1, rfl⟩

theorem pluginFolderDst_pref {sp : Path} {b : String} :
    isPref (pluginFolder sp) (pluginDst b) = true ↔ sp = ["backup"] :=
  folderPrefDest "config" "stplug-in" (by decide) (by decide) sp (b ++ ".lua")

theorem bool_eq_false {b : Bool} (h : ¬ b = true) : b = false := by
  cases b
  · rfl
  · exact absurd rfl h

theorem copy2_lookup (fs : FS) (src dst q : Path) :
    lookupP (fs.copy2 src dst).files q
      = if q = dst then some ((lookupP fs.files src).getD []) else lookupP fs.files q :=
  lookupP_upd fs.files dst q _

theorem copy2_pathExists (fs : FS) (src dst q : Path) :
    (fs.copy2 src dst).pathExists q = (isPref q dst || fs.pathExists q) :=
  anyKeyPref_upd fs.files dst q _

theorem pluginsStep_unfold (sp : Path) (st : BState) (e : String × String) :
    pluginsStep (pluginFolder sp) bpPlug st e
      = if st.fs.pathExists (pluginSrc sp e.1) then
          match should_backup_file st.fs (pluginSrc sp e.1) (pluginDst e.1) with
          | (true, reason) =>
              { st with fs := st.fs.copy2 (pluginSrc sp e.1) (pluginDst e.1),
                        saved := st.saved ++ [(e.1 ++ ".lua", reason, e.1, e.2)] }
          | (false, _) =>
              { st with skipped := st.skipped ++ [(e.1 ++ ".lua", e.1, e.2)] }
        else { st with missing := st.missing ++ [(e.1 ++ ".lua", e.1, e.2)] } := by
  unfold pluginsStep
  simp only [pluginSrc_def, pluginDst_def]

/-- Exhaustive characterization of one plugins iteration. -/
theorem pluginsStep_char (sp : Path) (st : BState) (e : String × String) :
    (st.fs.pathExists (pluginSrc sp e.1) = false ∧
      pluginsStep (pluginFolder sp) bpPlug st e
        = { st with missing := st.missing ++ [(e.1 ++ ".lua", e.1, e.2)] }) ∨
    (st.fs.pathExists (pluginSrc sp e.1) = true ∧
      st.fs.pathExists (pluginDst e.1) = true ∧
      fileEqual st.fs (pluginSrc sp e.1) (pluginDst e.1) = true ∧
      pluginsStep (pluginFolder sp) bpPlug st e
        = { st with skipped := st.skipped ++ [(e.1 ++ ".lua", e.1, e.2)] }) ∨
    (st.fs.pathExists (pluginSrc sp e.1) = true ∧
      ∃ r, should_backup_file st.fs (pluginSrc sp e.1) (pluginDst e.1) = (true, r) ∧
        pluginsStep (pluginFolder sp) bpPlug st e
          = { st with fs := st.fs.copy2 (pluginSrc sp e.1) (pluginDst e.1),
                      saved := st.saved ++ [(e.1 ++ ".lua", r, e.1, e.2)] }) := by
  rw [pluginsStep_unfold]
  cases hex : st.fs.pathExists (pluginSrc sp e.1) with
  | false =>
    refine Or.inl ⟨rfl, ?_⟩
    simp
  | true =>
    rcases should_backup_cases st.fs (pluginSrc sp e.1) (pluginDst e.1) with
      ⟨hd, hsb⟩ | ⟨hd, hfe, hsb⟩ | ⟨hd, hfe, hsb⟩
    · refine Or.inr (Or.inr ⟨rfl, "new", hsb, ?_⟩)
      simp [hsb]
    · refine Or.inr (Or.inr ⟨rfl, "modified", hsb, ?_⟩)
      simp [hsb]
    · refine Or.inr (Or.inl ⟨rfl, hd, hfe, ?_⟩)
      simp [hsb]

/-- Without any well-formedness hypothesis, one plugins iteration never
changes which per-identifier source files exist. -/
theorem pluginsStep_exists (sp : Path) (st : BState) (e : String × String) (a : String) :
    (pluginsStep (pluginFolder sp) bpPlug st e).fs.pathExists (pluginSrc sp a)
      = st.fs.pathExists (pluginSrc sp a) := by
  rcases pluginsStep_char sp st e with ⟨hex, hstep⟩ | ⟨hex, hd, hfe, hstep⟩ |
    ⟨hex, r, hsb, hstep⟩
  · rw [hstep]
  · rw [hstep]
  · rw [hstep]
    show (st.fs.copy2 (pluginSrc sp e.1) (pluginDst e.1)).pathExists (pluginSrc sp a) = _
    rw [copy2_pathExists]
    cases hp : isPref (pluginSrc sp a) (pluginDst e.1) with
    | false => simp
    | true =>
      obtain ⟨hsp, rfl⟩ := pluginSrcDst_pref.1 hp
      simp [hex]

/-- One plugins iteration under the flatness hypotheses: flatness is
preserved, per-identifier source files keep their contents and
existence, established source/destination agreement is preserved, and
the processed identifier's destination ends up holding its source
content. -/
theorem pluginsStep_main (sp : Path) (st : BState) (e : String × String)
    (hsf : FlatAt st.fs (pluginFolder sp)) (hbf : BFlat st.fs) :
    FlatAt (pluginsStep (pluginFolder sp) bpPlug st e).fs (pluginFolder sp) ∧
    BFlat (pluginsStep (pluginFolder sp) bpPlug st e).fs ∧
    (∀ a, lookupP (pluginsStep (pluginFolder sp) bpPlug st e).fs.files (pluginSrc sp a)
        = lookupP st.fs.files (pluginSrc sp a)) ∧
    (∀ a, lookupP st.fs.files (pluginDst a) = lookupP st.fs.files (pluginSrc sp a) →
      lookupP (pluginsStep (pluginFolder sp) bpPlug st e).fs.files (pluginDst a)
        = lookupP (pluginsStep (pluginFolder sp) bpPlug st e).fs.files (pluginSrc sp a)) ∧
    (st.fs.pathExists (pluginSrc sp e.1) = true →
      lookupP (pluginsStep (pluginFolder sp) bpPlug st e).fs.files (pluginDst e.1)
        = lookupP st.fs.files (pluginSrc sp e.1)) := by
  rcases pluginsStep_char sp st e with ⟨hex, hstep⟩ | ⟨hex, hd, hfe, hstep⟩ |
    ⟨hex, r, hsb, hstep⟩
  · rw [hstep]
    refine ⟨hsf, hbf, fun a => rfl, fun a h => h, ?_⟩
    intro h
    rw [hex] at h
    cases h
  · rw [hstep]
    obtain ⟨c, hcs, hcd⟩ := fileEqual_true hfe
    refine ⟨hsf, hbf, fun a => rfl, fun a h => h, ?_⟩
    intro _
    show lookupP st.fs.files (pluginDst e.1) = lookupP st.fs.files (pluginSrc sp e.1)
    rw [hcs, hcd]
  · obtain ⟨c, hc⟩ := flat_exists_lookup hsf (e.1 ++ ".lua")
      (by rw [pluginSrc_def]; exact hex)
    rw [pluginSrc_def] at hc
    have hne : pluginSrc sp e.1 ≠ pluginDst e.1 := by
      intro heq
      rw [← heq] at hsb
      have hself := fileEqual_self hc
      have hexd : st.fs.pathExists (pluginSrc sp e.1) = true := hex
      rw [should_backup_file, hexd] at hsb
      simp [hself] at hsb
    have hnal : ∀ a, pluginSrc sp a ≠ pluginDst e.1 := by
      intro a heq
      obtain ⟨hsp, ha⟩ := pluginSrcDst_eq.1 heq
      exact hne (pluginSrcDst_eq.2 ⟨hsp, rfl⟩)
    have hsrc_pres : ∀ a,
        lookupP (st.fs.copy2 (pluginSrc sp e.1) (pluginDst e.1)).files (pluginSrc sp a)
          = lookupP st.fs.files (pluginSrc sp a) := by
      intro a
      rw [copy2_lookup, if_neg (hnal a)]
    rw [hstep]
    refine ⟨?_, ?_, ?_, ?_, ?_⟩
    · intro f hf hpref
      show f.1.length = (pluginFolder sp).length + 1
      rcases mem_updFiles hf with hold | hnew
      · exact hsf f hold hpref
      · rw [hnew] at hpref
        have hsp := pluginFolderDst_pref.1 hpref
        exact absurd (pluginSrcDst_eq.2 ⟨hsp, rfl⟩) hne
    · intro f hf hpref
      rcases mem_updFiles hf with hold | hnew
      · exact hbf f hold hpref
      · rw [hnew]
        rfl
    · exact hsrc_pres
    · intro a hsync
      show lookupP (st.fs.copy2 (pluginSrc sp e.1) (pluginDst e.1)).files (pluginDst a) = _
      rw [hsrc_pres a]
      by_cases hae : a = e.1
      · subst hae
        rw [copy2_lookup, if_pos rfl, hc]
        rfl
      · rw [copy2_lookup, if_neg (fun hcon => hae (pluginDst_inj hcon)), hsync]
    · intro _
      show lookupP (st.fs.copy2 (pluginSrc sp e.1) (pluginDst e.1)).files (pluginDst e.1) = _
      rw [copy2_lookup, if_pos rfl, hc]
      rfl

theorem plugFold_cons (sp : Path) (e : String × String) (rest : List (String × String))
    (st : BState) :
    plugFold sp (e :: rest) st
      = plugFold sp rest (pluginsStep (pluginFolder sp) bpPlug st e) := rfl

/-- The whole plugins loop under the flatness hypotheses. -/
theorem plugFold_main (sp : Path) (l : List (String × String)) (st : BState)
    (hsf : FlatAt st.fs (pluginFolder sp)) (hbf : BFlat st.fs) :
    FlatAt (plugFold sp l st).fs (pluginFolder sp) ∧
    BFlat (plugFold sp l st).fs ∧
    (∀ a, lookupP (plugFold sp l st).fs.files (pluginSrc sp a)
        = lookupP st.fs.files (pluginSrc sp a)) ∧
    (∀ a, (plugFold sp l st).fs.pathExists (pluginSrc sp a)
        = st.fs.pathExists (pluginSrc sp a)) ∧
    (∀ a, lookupP st.fs.files (pluginDst a) = lookupP st.fs.files (pluginSrc sp a) →
      lookupP (plugFold sp l st).fs.files (pluginDst a)
        = lookupP (plugFold sp l st).fs.files (pluginSrc sp a)) ∧
    (∀ e ∈ l, st.fs.pathExists (pluginSrc sp e.1) = true →
      lookupP (plugFold sp l st).fs.files (pluginDst e.1)
        = lookupP st.fs.files (pluginSrc sp e.1)) := by
  induction l generalizing st with
  | nil =>
    exact ⟨hsf, hbf, fun a => rfl, fun a => rfl, fun a h => h,
      fun e he => absurd he (List.not_mem_nil e)⟩
  | cons e rest ih =>
    obtain ⟨s1, s2, s3, s4, s5⟩ := pluginsStep_main sp st e hsf hbf
    obtain ⟨f1, f2, f3, f4, f5, f6⟩ := ih (pluginsStep (pluginFolder sp) bpPlug st e) s1 s2
    rw [plugFold_cons]
    refine ⟨f1, f2, ?_, ?_, ?_, ?_⟩
    · intro a
      rw [f3 a, s3 a]
    · intro a
      rw [f4 a, pluginsStep_exists]
    · intro a h
      exact f5 a (s4 a h)
    · intro g hg h
      rcases List.mem_cons.1 hg with rfl | hgrest
      · have hs : lookupP (pluginsStep (pluginFolder sp) bpPlug st g).fs.files (pluginDst g.1)
            = lookupP (pluginsStep (pluginFolder sp) bpPlug st g).fs.files (pluginSrc sp g.1) := by
          rw [s5 h, s3]
        rw [f5 g.1 hs, f3, s3]
      · have h1 : (pluginsStep (pluginFolder sp) bpPlug st e).fs.pathExists
            (pluginSrc sp g.1) = true := by
          rw [pluginsStep_exists]
          exact h
        rw [f6 g hgrest h1, s3]

/-- The fold never removes an existing path. -/
theorem plugFold_exists_mono (sp : Path) (l : List (String × String)) (st : BState)
    (p : Path) (h : st.fs.pathExists p = true) :
    (plugFold sp l st).fs.pathExists p = true := by
  induction l generalizing st with
  | nil => exact h
  | cons e rest ih =>
    rw [plugFold_cons]
    apply ih
    rcases pluginsStep_char sp st e with ⟨_, hstep⟩ | ⟨_, _, _, hstep⟩ | ⟨_, r, _, hstep⟩
    · rw [hstep]
      exact h
    · rw [hstep]
      exact h
    · rw [hstep]
      show (st.fs.copy2 _ _).pathExists p = true
      rw [copy2_pathExists]
      simp [h]

/-- When every processed source file is already in sync with its
destination, the plugins loop copies nothing: the filesystem is unchanged
and no saved record is produced. -/
theorem plugFold_noop (sp : Path) (l : List (String × String)) (st : BState)
    (hsync : ∀ e ∈ l, st.fs.pathExists (pluginSrc sp e.1) = true →
      fileEqual st.fs (pluginSrc sp e.1) (pluginDst e.1) = true) :
    (plugFold sp l st).fs = st.fs ∧ (plugFold sp l st).saved = st.saved := by
  induction l generalizing st with
  | nil => exact ⟨rfl, rfl⟩
  | cons e rest ih =>
    rw [plugFold_cons]
    rcases pluginsStep_char sp st e with ⟨hex, hstep⟩ | ⟨hex, hd, hfe, hstep⟩ |
      ⟨hex, r, hsb, hstep⟩
    · rw [hstep]
      exact ih _ (fun g hg h => hsync g (List.mem_cons_of_mem _ hg) h)
    · rw [hstep]
      exact ih _ (fun g hg h => hsync g (List.mem_cons_of_mem _ hg) h)
    · exfalso
      have hfe := hsync e (List.mem_cons_self _ _) hex
      obtain ⟨c, hcs, hcd⟩ := fileEqual_true hfe
      have hexd : st.fs.pathExists (pluginDst e.1) = true :=
        pathExists_of_lookup_some hcd
      rw [should_backup_file, hexd] at hsb
      simp [hfe] at hsb

/-- Record bookkeeping of the plugins loop: saved and skipped grow by
exactly the processed identifiers whose source files exist. -/
theorem plugFold_saved_skipped (sp : Path) (l : List (String × String)) (st : BState) :
    ∃ ds dk, (plugFold sp l st).saved = st.saved ++ ds ∧
      (plugFold sp l st).skipped = st.skipped ++ dk ∧
      ((ds = [] ∧ dk = []) ↔ ∀ e ∈ l, st.fs.pathExists (pluginSrc sp e.1) = false) := by
  induction l generalizing st with
  | nil => exact ⟨[], [], by simp [plugFold], by simp [plugFold], by simp⟩
  | cons e rest ih =>
    rw [plugFold_cons]
    rcases pluginsStep_char sp st e with ⟨hex, hstep⟩ | ⟨hex, hd, hfe, hstep⟩ |
      ⟨hex, r, hsb, hstep⟩
    · rw [hstep]
      obtain ⟨ds, dk, ihs, ihk, ihiff⟩ := ih _
      refine ⟨ds, dk, ihs, ihk, ?_⟩
      rw [ihiff]
      constructor
      · intro hall g hg
        rcases List.mem_cons.1 hg with rfl | hgr
        · exact hex
        · exact hall g hgr
      · intro hall g hg
        exact hall g (List.mem_cons_of_mem _ hg)
    · rw [hstep]
      obtain ⟨ds, dk, ihs, ihk, ihiff⟩ := ih _
      refine ⟨ds, (e.1 ++ ".lua", e.1, e.2) :: dk, ihs, ?_, ?_⟩
      · rw [ihk]
        show (st.skipped ++ [(e.1 ++ ".lua", e.1, e.2)]) ++ dk = _
        rw [List.append_assoc]
        rfl
      · constructor
        · rintro ⟨-, h2⟩
          cases h2
        · intro hall
          have hh := hall e (List.mem_cons_self _ _)
          rw [hex] at hh
          cases hh
    · rw [hstep]
      obtain ⟨ds, dk, ihs, ihk, ihiff⟩ := ih _
      refine ⟨(e.1 ++ ".lua", r, e.1, e.2) :: ds, dk, ?_, ihk, ?_⟩
      · rw [ihs]
        show (st.saved ++ [(e.1 ++ ".lua", r, e.1, e.2)]) ++ ds = _
        rw [List.append_assoc]
        rfl
      · constructor
        · rintro ⟨h1, -⟩
          cases h1
        · intro hall
          have hh := hall e (List.mem_cons_self _ _)
          rw [hex] at hh
          cases hh

theorem report_success_plugins (sv : List (String × String × String × String))
    (sk : List (String × String × String)) :
    report_success sv sk "plugins" = false ↔ (sv = [] ∧ sk = []) := by
  cases sv with
  | nil =>
    cases sk with
    | nil => simp [report_success]
    | cons x xs => simp [report_success]
  | cons x xs => cases sk <;> simp [report_success]

theorem backup_game_files_plugins_no_source (fs : FS) (sp : Path)
    (dict : List (String × String)) (hex : fs.pathExists (pluginFolder sp) = false) :
    backup_game_files fs sp dict "plugins" = ⟨fs, false, [], [], []⟩ := by
  unfold backup_game_files
  have hpf : (if ("plugins" == "plugins") = true then sp ++ ["config", "stplug-in"]
      else sp ++ ["appcache", "stats"]) = pluginFolder sp := by
    simp [pluginFolder]
  rw [hpf]
  simp [hex]

theorem backup_game_files_plugins_run (fs : FS) (sp : Path)
    (dict : List (String × String)) (hex : fs.pathExists (pluginFolder sp) = true)
    (hne : dict ≠ []) :
    backup_game_files fs sp dict "plugins"
      = ⟨(plugFold sp dict ⟨fs, [], [], []⟩).fs,
         report_success (plugFold sp dict ⟨fs, [], [], []⟩).saved
           (plugFold sp dict ⟨fs, [], [], []⟩).skipped "plugins",
         (plugFold sp dict ⟨fs, [], [], []⟩).saved,
         (plugFold sp dict ⟨fs, [], [], []⟩).skipped,
         (plugFold sp dict ⟨fs, [], [], []⟩).missing⟩ := by
  have h2 : dict.isEmpty = false := by
    cases dict with
    | nil => exact absurd rfl hne
    | cons a l => rfl
  unfold backup_game_files
  have hpf : (if ("plugins" == "plugins") = true then sp ++ ["config", "stplug-in"]
      else sp ++ ["appcache", "stats"]) = pluginFolder sp := by
    simp [pluginFolder]
  rw [hpf]
  simp [hex, h2, plugFold]

/-! ### C2: idempotence of the plugins sync -/

/-- C2: running the plugins sync twice in succession with no change to
the source files yields zero `new`/`modified` records on the second run
(and the second run does not change the filesystem).  The hypotheses
state that the per-identifier source folder and the backup tree contain
only regular files at their canonical depth — precisely the situations
where the Python run completes without raising. -/
theorem backup_plugins_idempotent (fs : FS) (sp : Path) (dict : List (String × String))
    (hsf : FlatAt fs (pluginFolder sp)) (hbf : BFlat fs) :
    (backup_game_files (backup_game_files fs sp dict "plugins").fs sp dict "plugins").saved
      = [] ∧
    (backup_game_files (backup_game_files fs sp dict "plugins").fs sp dict "plugins").fs
      = (backup_game_files fs sp dict "plugins").fs := by
  cases hex : fs.pathExists (pluginFolder sp) with
  | false =>
    have h1 := backup_game_files_plugins_no_source fs sp dict hex
    rw [h1]
    have h2 := backup_game_files_plugins_no_source fs sp dict hex
    rw [show (⟨fs, false, [], [], []⟩ : BackupRun).fs = fs from rfl, h2]
    exact ⟨rfl, rfl⟩
  | true =>
    cases hdict : dict with
    | nil =>
      have h1 : backup_game_files fs sp [] "plugins" = ⟨fs, true, [], [], []⟩ := by
        unfold backup_game_files
        have hpf : (if ("plugins" == "plugins") = true then sp ++ ["config", "stplug-in"]
            else sp ++ ["appcache", "stats"]) = pluginFolder sp := by
          simp [pluginFolder]
        rw [hpf]
        simp [hex]
      rw [h1]
      rw [show (⟨fs, true, [], [], []⟩ : BackupRun).fs = fs from rfl, h1]
      exact ⟨rfl, rfl⟩
    | cons d0 drest =>
      rw [← hdict]
      have hne : dict ≠ [] := by
        rw [hdict]
        exact fun hc => by cases hc
      have hrun1fs : (backup_game_files fs sp dict "plugins").fs
          = (plugFold sp dict ⟨fs, [], [], []⟩).fs := by
        rw [backup_game_files_plugins_run fs sp dict hex hne]
      obtain ⟨f1, f2, f3, f4, f5, f6⟩ := plugFold_main sp dict ⟨fs, [], [], []⟩ hsf hbf
      have hex1 : (plugFold sp dict ⟨fs, [], [], []⟩).fs.pathExists (pluginFolder sp) = true :=
        plugFold_exists_mono sp dict ⟨fs, [], [], []⟩ (pluginFolder sp) hex
      have hrun2 := backup_game_files_plugins_run
        (plugFold sp dict ⟨fs, [], [], []⟩).fs sp dict hex1 hne
      rw [hrun1fs, hrun2]
      have hsync : ∀ e ∈ dict,
          (plugFold sp dict ⟨fs, [], [], []⟩).fs.pathExists (pluginSrc sp e.1) = true →
          fileEqual (plugFold sp dict ⟨fs, [], [], []⟩).fs
            (pluginSrc sp e.1) (pluginDst e.1) = true := by
        intro e he h1
        have h0 : fs.pathExists (pluginSrc sp e.1) = true := by
          rw [← f4 e.1]
          exact h1
        obtain ⟨c, hc⟩ := flat_exists_lookup hsf (e.1 ++ ".lua")
          (by rw [pluginSrc_def]; exact h0)
        rw [pluginSrc_def] at hc
        have hdst : lookupP (plugFold sp dict ⟨fs, [], [], []⟩).fs.files (pluginDst e.1)
            = some c := by
          rw [f6 e he h0]
          exact hc
        have hsrc : lookupP (plugFold sp dict ⟨fs, [], [], []⟩).fs.files (pluginSrc sp e.1)
            = some c := by
          rw [f3 e.1]
          exact hc
        unfold fileEqual
        rw [hsrc, hdst]
        simp
      obtain ⟨hnfs, hnsaved⟩ := plugFold_noop sp dict
        ⟨(plugFold sp dict ⟨fs, [], [], []⟩).fs, [], [], []⟩ hsync
      exact ⟨hnsaved, hnfs⟩

/-- C2 witness: one tracked plugin file, two configured identifiers;
the second run reports nothing saved and leaves the filesystem alone. -/
theorem backup_plugins_idempotent_witness :
    (backup_game_files
        (backup_game_files ⟨[(["st", "config", "stplug-in", "10.lua"], [1, 2])]⟩
          ["st"] [("10", "A"), ("20", "B")] "plugins").fs
        ["st"] [("10", "A"), ("20", "B")] "plugins").saved = [] ∧
    (backup_game_files
        (backup_game_files ⟨[(["st", "config", "stplug-in", "10.lua"], [1, 2])]⟩
          ["st"] [("10", "A"), ("20", "B")] "plugins").fs
        ["st"] [("10", "A"), ("20", "B")] "plugins").fs
      = (backup_game_files ⟨[(["st", "config", "stplug-in", "10.lua"], [1, 2])]⟩
          ["st"] [("10", "A"), ("20", "B")] "plugins").fs :=
  backup_plugins_idempotent ⟨[(["st", "config", "stplug-in", "10.lua"], [1, 2])]⟩
    ["st"] [("10", "A"), ("20", "B")] (by unfold FlatAt; decide) (by unfold BFlat; decide)

/-! ### C3: plugins success policy -/

/-- C3: with an existing source folder and a non-empty identifier set,
the plugins category returns `False` exactly when no saved and no skipped
record exists, which happens exactly when every requested identifier's
plugin file is missing from the source folder; any mix of saved/skipped
records together with some missing files still returns `True`. -/
theorem backup_plugins_success_policy (fs : FS) (sp : Path)
    (dict : List (String × String)) (hex : fs.pathExists (pluginFolder sp) = true)
    (hne : dict ≠ []) :
    ((backup_game_files fs sp dict "plugins").success = false ↔
      (backup_game_files fs sp dict "plugins").saved = [] ∧
      (backup_game_files fs sp dict "plugins").skipped = []) ∧
    ((backup_game_files fs sp dict "plugins").success = false ↔
      ∀ e ∈ dict, fs.pathExists (pluginSrc sp e.1) = false) := by
  have hrun := backup_game_files_plugins_run fs sp dict hex hne
  rw [hrun]
  obtain ⟨ds, dk, hs, hk, hiff⟩ := plugFold_saved_skipped sp dict ⟨fs, [], [], []⟩
  have hs' : (plugFold sp dict ⟨fs, [], [], []⟩).saved = ds := by
    rw [hs]
    rfl
  have hk' : (plugFold sp dict ⟨fs, [], [], []⟩).skipped = dk := by
    rw [hk]
    rfl
  have hrep := report_success_plugins (plugFold sp dict ⟨fs, [], [], []⟩).saved
    (plugFold sp dict ⟨fs, [], [], []⟩).skipped
  constructor
  · exact hrep
  · rw [hrep, hs', hk', hiff]

/-- C3 witness: the spec scenario — identifiers 10 and 20, only `10.lua`
present: the run records one saved and one missing file and still
succeeds; a set whose files are all absent fails. -/
theorem backup_plugins_success_policy_witness :
    ((backup_game_files ⟨[(["st", "config", "stplug-in", "10.lua"], [1, 2])]⟩
        ["st"] [("10", "A"), ("20", "B")] "plugins").success = true) ∧
    ((backup_game_files ⟨[(["st", "config", "stplug-in", "10.lua"], [1, 2])]⟩
        ["st"] [("99", "X")] "plugins").success = false) := by
  constructor
  · have h := (backup_plugins_success_policy
      ⟨[(["st", "config", "stplug-in", "10.lua"], [1, 2])]⟩ ["st"]
      [("10", "A"), ("20", "B")] (by decide) (by decide)).2
    cases hb : (backup_game_files ⟨[(["st", "config", "stplug-in", "10.lua"], [1, 2])]⟩
        ["st"] [("10", "A"), ("20", "B")] "plugins").success with
    | true => rfl
    | false =>
      exfalso
      have h2 := h.1 hb ("10", "A") (by decide)
      revert h2
      decide
  · have h := (backup_plugins_success_policy
      ⟨[(["st", "config", "stplug-in", "10.lua"], [1, 2])]⟩ ["st"]
      [("99", "X")] (by decide) (by decide)).2
    apply h.2
    intro e he
    have he2 : e = ("99", "X") := List.mem_singleton.1 he
    subst he2
    decide

/-! ### Stats-loop characterization -/

theorem getLastD_append_single (l : Path) (x d : String) : (l ++ [x]).getLastD d = x :=
  List.getLastD_concat d x l

theorem eq_append_bn {folder q : Path} (hp : isPref folder q = true)
    (hl : folder.length + 1 = q.length) : q = folder ++ [bn q] := by
  obtain ⟨t, rfl⟩ := isPref_iff_append.1 hp
  have hlen : t.length = 1 := by
    simp at hl
    omega
  match t, hlen with
  | [x], _ =>
    rw [bn, getLastD_append_single]

theorem globList_sub {fs : FS} {folder : Path} {a : String} {q : Path}
    (hq : q ∈ globList fs folder a) :
    q ∈ fs.files.map (fun e => e.1) ∧ folder.length + 1 = q.length ∧
      isPref folder q = true ∧ globNameMatch a (bn q) = true := by
  unfold globList at hq
  have h1 := List.mem_filter.1 hq
  have h2 := h1.2
  simp only [Bool.and_eq_true, beq_iff_eq] at h2
  exact ⟨h1.1, h2.1, h2.2.1, h2.2.2⟩

theorem lookup_isSome_of_mem_keys {l : List (Path × Content)} {q : Path}
    (h : q ∈ l.map (fun e => e.1)) : (lookupP l q).isSome = true := by
  obtain ⟨e, hel, he1⟩ := List.mem_map.1 h
  obtain ⟨c, hc⟩ := @lookup_isSome_of_memKey l q ⟨e.2, by rw [← he1] at *; simpa using hel⟩
  rw [hc]
  rfl

theorem mem_keys_updFiles {l : List (Path × Content)} {p : Path} {c : Content} {q : Path}
    (h : q ∈ l.map (fun e => e.1)) : q ∈ (updFiles l p c).map (fun e => e.1) := by
  induction l with
  | nil => simp at h
  | cons f rest ih =>
    obtain ⟨r, d⟩ := f
    rcases eq_or_ne r p with rfl | hrp
    · simp only [updFiles, if_pos rfl]
      simpa using h
    · simp only [updFiles, if_neg hrp]
      simp only [List.map_cons, List.mem_cons] at h ⊢
      rcases h with h | h
      · exact Or.inl h
      · exact Or.inr (ih h)

theorem keys_updFiles (l : List (Path × Content)) (p : Path) (c : Content) :
    (updFiles l p c).map (fun e => e.1)
      = if (lookupP l p).isSome = true then l.map (fun e => e.1)
        else l.map (fun e => e.1) ++ [p] := by
  induction l with
  | nil => simp [updFiles]
  | cons f rest ih =>
    obtain ⟨r, d⟩ := f
    rcases eq_or_ne r p with rfl | hrp
    · simp [updFiles]
    · simp only [updFiles, if_neg hrp, List.map_cons, lookupP_cons, if_neg hrp, ih]
      cases h : (lookupP rest p).isSome with
      | false => simp [h]
      | true => simp [h]

/-- Effect of one copy on a glob expansion: the glob is unchanged when
the destination is already a file (overwrite keeps the listing) or when
the destination does not satisfy the glob predicate. -/
theorem globList_copy2 (fs : FS) (folder : Path) (src dst : Path) (a : String)
    (h : (lookupP fs.files dst).isSome = true ∨
      ((folder.length + 1 == dst.length) &&
        (isPref folder dst && globNameMatch a (bn dst))) = false) :
    globList (fs.copy2 src dst) folder a = globList fs folder a := by
  unfold globList
  show List.filter _ ((updFiles fs.files dst _).map _) = _
  rw [keys_updFiles]
  rcases h with hsome | hno
  · rw [if_pos hsome]
  · cases hlk : (lookupP fs.files dst).isSome with
    | true => rw [if_pos rfl]
    | false =>
      rw [if_neg (by simp [hlk])]
      rw [List.filter_append]
      simp [hno]

/-- Exhaustive characterization of one stats copy-or-skip. -/
theorem statsFileStep_char (b g : String) (st : BState) (q : Path) :
    (∃ r, should_backup_file st.fs q (bpStats ++ [bn q]) = (true, r) ∧
      statsFileStep bpStats b g st q
        = { st with fs := st.fs.copy2 q (bpStats ++ [bn q]),
                    saved := st.saved ++ [(bn q, r, b, g)] }) ∨
    (statsFileStep bpStats b g st q
        = { st with skipped := st.skipped ++ [(bn q, b, g)] }) := by
  unfold statsFileStep
  rcases should_backup_cases st.fs q (bpStats ++ [bn q]) with
    ⟨hd, hsb⟩ | ⟨hd, hfe, hsb⟩ | ⟨hd, hfe, hsb⟩
  · exact Or.inl ⟨"new", hsb, by simp [hsb]⟩
  · exact Or.inl ⟨"modified", hsb, by simp [hsb]⟩
  · exact Or.inr (by simp [hsb])

theorem innerFold_cons (b g : String) (q : Path) (rest : List Path) (st : BState) :
    (q :: rest).foldl (statsFileStep bpStats b g) st
      = rest.foldl (statsFileStep bpStats b g) (statsFileStep bpStats b g st q) := rfl

/-- The inner stats loop over one identifier's glob matches: the glob
expansions are unchanged, missing records are never produced, and the
records of every other identifier are untouched. -/
theorem statsInner_main (sp : Path) (b g : String) (ms : List Path) (st : BState)
    (hms : ∀ q ∈ ms, q ∈ st.fs.files.map (fun e => e.1) ∧
      isPref (statsFolder sp) q = true ∧ (statsFolder sp).length + 1 = q.length) :
    (∀ a, globList (ms.foldl (statsFileStep bpStats b g) st).fs (statsFolder sp) a
        = globList st.fs (statsFolder sp) a) ∧
    (ms.foldl (statsFileStep bpStats b g) st).missing = st.missing ∧
    (∀ a, (b == a) = false →
      (ms.foldl (statsFileStep bpStats b g) st).saved.filter (fun r => r.2.2.1 == a)
        = st.saved.filter (fun r => r.2.2.1 == a) ∧
      (ms.foldl (statsFileStep bpStats b g) st).skipped.filter (fun r => r.2.1 == a)
        = st.skipped.filter (fun r => r.2.1 == a)) := by
  induction ms generalizing st with
  | nil => exact ⟨fun a => rfl, rfl, fun a _ => ⟨rfl, rfl⟩⟩
  | cons q rest ih =>
    obtain ⟨hqk, hqp, hql⟩ := hms q (List.mem_cons_self _ _)
    have hstep_glob : ∀ a, globList (statsFileStep bpStats b g st q).fs (statsFolder sp) a
        = globList st.fs (statsFolder sp) a := by
      intro a
      rcases statsFileStep_char b g st q with ⟨r, hsb, hstep⟩ | hstep
      · rw [hstep]
        show globList (st.fs.copy2 q (bpStats ++ [bn q])) _ _ = _
        apply globList_copy2
        rcases eq_or_ne sp ["backup"] with rfl | hsp
        · left
          have hq2 : q = statsFolder ["backup"] ++ [bn q] := eq_append_bn hqp hql
          have hq3 : (bpStats ++ [bn q] : Path) = q := by
            rw [hq2]
            rfl
          rw [hq3]
          exact lookup_isSome_of_mem_keys hqk
        · right
          have hnp : isPref (statsFolder sp) (bpStats ++ [bn q]) = false := by
            apply bool_eq_false
            intro htrue
            have htrue2 : isPref (sp ++ ["appcache", "stats"])
                ["backup", "appcache", "stats", bn q] = true := htrue
            exact hsp ((folderPrefDest "appcache" "stats" (by decide) (by decide)
              sp (bn q)).1 htrue2)
          simp [hnp]
      · rw [hstep]
    have hkeys : ∀ p2 ∈ rest,
        p2 ∈ (statsFileStep bpStats b g st q).fs.files.map (fun e => e.1) ∧
        isPref (statsFolder sp) p2 = true ∧ (statsFolder sp).length + 1 = p2.length := by
      intro p2 hp2
      obtain ⟨h1, h2, h3⟩ := hms p2 (List.mem_cons_of_mem _ hp2)
      refine ⟨?_, h2, h3⟩
      rcases statsFileStep_char b g st q with ⟨r, hsb, hstep⟩ | hstep
      · rw [hstep]
        exact mem_keys_updFiles h1
      · rw [hstep]
        exact h1
    have hstep_missing : (statsFileStep bpStats b g st q).missing = st.missing := by
      rcases statsFileStep_char b g st q with ⟨r, hsb, hstep⟩ | hstep <;> rw [hstep]
    have hstep_records : ∀ a, (b == a) = false →
        (statsFileStep bpStats b g st q).saved.filter (fun r => r.2.2.1 == a)
          = st.saved.filter (fun r => r.2.2.1 == a) ∧
        (statsFileStep bpStats b g st q).skipped.filter (fun r => r.2.1 == a)
          = st.skipped.filter (fun r => r.2.1 == a) := by
      intro a hba
      rcases statsFileStep_char b g st q with ⟨r, hsb, hstep⟩ | hstep
      · rw [hstep]
        refine ⟨?_, rfl⟩
        show (st.saved ++ [(bn q, r, b, g)]).filter _ = _
        rw [List.filter_append]
        simp [hba]
      · rw [hstep]
        refine ⟨rfl, ?_⟩
        show (st.skipped ++ [(bn q, b, g)]).filter _ = _
        rw [List.filter_append]
        simp [hba]
    obtain ⟨ihg, ihm, ihr⟩ := ih (statsFileStep bpStats b g st q) hkeys
    refine ⟨?_, ?_, ?_⟩
    · intro a
      rw [innerFold_cons, ihg a, hstep_glob a]
    · rw [innerFold_cons, ihm, hstep_missing]
    · intro a hba
      obtain ⟨ih1, ih2⟩ := ihr a hba
      obtain ⟨s1, s2⟩ := hstep_records a hba
      exact ⟨by rw [innerFold_cons, ih1, s1], by rw [innerFold_cons, ih2, s2]⟩

theorem statsFold_cons (sp : Path) (e : String × String) (rest : List (String × String))
    (st : BState) :
    statsFold sp (e :: rest) st
      = statsFold sp rest (statsStep (statsFolder sp) bpStats st e) := rfl

theorem statsStep_def (sp : Path) (st : BState) (e : String × String) :
    statsStep (statsFolder sp) bpStats st e
      = (globList st.fs (statsFolder sp) e.1).foldl (statsFileStep bpStats e.1 e.2) st := rfl

/-- The whole stats loop: glob expansions are preserved, no missing
record is ever recorded, and an identifier with an empty glob expansion
contributes no record. -/
theorem statsFold_main (sp : Path) (l : List (String × String)) (st : BState) :
    (∀ a, globList (statsFold sp l st).fs (statsFolder sp) a
        = globList st.fs (statsFolder sp) a) ∧
    (statsFold sp l st).missing = st.missing ∧
    (∀ a, globList st.fs (statsFolder sp) a = [] →
      (statsFold sp l st).saved.filter (fun r => r.2.2.1 == a)
        = st.saved.filter (fun r => r.2.2.1 == a) ∧
      (statsFold sp l st).skipped.filter (fun r => r.2.1 == a)
        = st.skipped.filter (fun r => r.2.1 == a)) := by
  induction l generalizing st with
  | nil => exact ⟨fun a => rfl, rfl, fun a _ => ⟨rfl, rfl⟩⟩
  | cons e rest ih =>
    have hms : ∀ q ∈ globList st.fs (statsFolder sp) e.1,
        q ∈ st.fs.files.map (fun x => x.1) ∧ isPref (statsFolder sp) q = true ∧
          (statsFolder sp).length + 1 = q.length := by
      intro q hq
      obtain ⟨h1, h2, h3, h4⟩ := globList_sub hq
      exact ⟨h1, h3, h2⟩
    obtain ⟨sg, sm, sr⟩ := statsInner_main sp e.1 e.2
      (globList st.fs (statsFolder sp) e.1) st hms
    obtain ⟨ig, im, ir⟩ := ih (statsStep (statsFolder sp) bpStats st e)
    rw [statsFold_cons]
    refine ⟨?_, ?_, ?_⟩
    · intro a
      rw [ig a]
      exact sg a
    · rw [im]
      exact sm
    · intro a hga
      have hga1 : globList (statsStep (statsFolder sp) bpStats st e).fs
          (statsFolder sp) a = [] := by
        rw [statsStep_def, sg a]
        exact hga
      obtain ⟨i1, i2⟩ := ir a hga1
      cases hba : (e.1 == a) with
      | false =>
        obtain ⟨s1, s2⟩ := sr a hba
        constructor
        · rw [i1]
          exact s1
        · rw [i2]
          exact s2
      | true =>
        have hea : e.1 = a := eq_of_beq hba
        have hms0 : globList st.fs (statsFolder sp) e.1 = [] := by
          rw [hea]
          exact hga
        have hstep0 : statsStep (statsFolder sp) bpStats st e = st := by
          rw [statsStep_def, hms0]
          rfl
        rw [hstep0] at i1 i2 ⊢
        exact ⟨i1, i2⟩

theorem report_success_not_plugins (sv : List (String × String × String × String))
    (sk : List (String × String × String)) (bt : String)
    (hbt : (bt == "plugins") = false) :
    report_success sv sk bt = true := by
  unfold report_success
  rw [hbt]
  simp

theorem backup_game_files_else_no_source (fs : FS) (sp : Path)
    (dict : List (String × String)) (bt : String) (hbt : (bt == "plugins") = false)
    (hex : fs.pathExists (statsFolder sp) = false) :
    backup_game_files fs sp dict bt = ⟨fs, false, [], [], []⟩ := by
  unfold backup_game_files
  rw [hbt]
  simp [show fs.pathExists (sp ++ ["appcache", "stats"]) = false from hex]

theorem backup_game_files_else_empty (fs : FS) (sp : Path) (bt : String)
    (hbt : (bt == "plugins") = false)
    (hex : fs.pathExists (statsFolder sp) = true) :
    backup_game_files fs sp [] bt = ⟨fs, true, [], [], []⟩ := by
  unfold backup_game_files
  rw [hbt]
  simp [show fs.pathExists (sp ++ ["appcache", "stats"]) = true from hex]

theorem backup_game_files_else_run (fs : FS) (sp : Path)
    (dict : List (String × String)) (bt : String) (hbt : (bt == "plugins") = false)
    (hex : fs.pathExists (statsFolder sp) = true) (hne : dict ≠ []) :
    backup_game_files fs sp dict bt
      = ⟨(statsFold sp dict ⟨fs, [], [], []⟩).fs,
         report_success (statsFold sp dict ⟨fs, [], [], []⟩).saved
           (statsFold sp dict ⟨fs, [], [], []⟩).skipped bt,
         (statsFold sp dict ⟨fs, [], [], []⟩).saved,
         (statsFold sp dict ⟨fs, [], [], []⟩).skipped,
         (statsFold sp dict ⟨fs, [], [], []⟩).missing⟩ := by
  have h2 : dict.isEmpty = false := by
    cases dict with
    | nil => exact absurd rfl hne
    | cons a l => rfl
  unfold backup_game_files
  rw [hbt]
  simp [show fs.pathExists (sp ++ ["appcache", "stats"]) = true from hex, h2,
    statsFold, statsFolder]

/-! ### C4: statistics success policy -/

/-- C4: whenever the stats source folder exists, the stats category
returns `True` for every identifier set; it never produces a `missing`
record, and an identifier whose glob matches zero files produces no
record at all. -/
theorem backup_stats_success_policy (fs : FS) (sp : Path)
    (dict : List (String × String)) (hex : fs.pathExists (statsFolder sp) = true) :
    (backup_game_files fs sp dict "stats").success = true ∧
    (backup_game_files fs sp dict "stats").missing = [] ∧
    (∀ a, globList fs (statsFolder sp) a = [] →
      (backup_game_files fs sp dict "stats").saved.filter (fun r => r.2.2.1 == a) = [] ∧
      (backup_game_files fs sp dict "stats").skipped.filter (fun r => r.2.1 == a) = []) := by
  cases hd : dict with
  | nil =>
    rw [backup_game_files_else_empty fs sp "stats" (by decide) hex]
    exact ⟨rfl, rfl, fun a _ => ⟨rfl, rfl⟩⟩
  | cons d0 drest =>
    rw [← hd]
    have hne : dict ≠ [] := by
      rw [hd]
      exact fun hc => by cases hc
    rw [backup_game_files_else_run fs sp dict "stats" (by decide) hex hne]
    obtain ⟨sg, sm, sr⟩ := statsFold_main sp dict ⟨fs, [], [], []⟩
    refine ⟨report_success_not_plugins _ _ _ (by decide), sm, ?_⟩
    intro a hga
    obtain ⟨s1, s2⟩ := sr a hga
    exact ⟨by rw [s1]; rfl, by rw [s2]; rfl⟩

/-- C4 witness: the spec scenario — identifier 10 matches two stats
files (both copied), identifier 77 matches none and leaves no trace. -/
theorem backup_stats_success_policy_witness :
    (backup_game_files ⟨[(["st", "appcache", "stats", "10_stats.bin"], [1]),
        (["st", "appcache", "stats", "x10y.bin"], [2])]⟩
      ["st"] [("10", "G"), ("77", "H")] "stats").success = true ∧
    (backup_game_files ⟨[(["st", "appcache", "stats", "10_stats.bin"], [1]),
        (["st", "appcache", "stats", "x10y.bin"], [2])]⟩
      ["st"] [("10", "G"), ("77", "H")] "stats").missing = [] ∧
    (backup_game_files ⟨[(["st", "appcache", "stats", "10_stats.bin"], [1]),
        (["st", "appcache", "stats", "x10y.bin"], [2])]⟩
      ["st"] [("10", "G"), ("77", "H")] "stats").saved.filter
        (fun r => r.2.2.1 == "77") = [] ∧
    (backup_game_files ⟨[(["st", "appcache", "stats", "10_stats.bin"], [1]),
        (["st", "appcache", "stats", "x10y.bin"], [2])]⟩
      ["st"] [("10", "G"), ("77", "H")] "stats").skipped.filter
        (fun r => r.2.1 == "77") = [] := by
  have h := backup_stats_success_policy
    ⟨[(["st", "appcache", "stats", "10_stats.bin"], [1]),
      (["st", "appcache", "stats", "x10y.bin"], [2])]⟩
    ["st"] [("10", "G"), ("77", "H")] (by decide)
  obtain ⟨h1, h2, h3⟩ := h
  obtain ⟨h4, h5⟩ := h3 "77" (by decide)
  exact ⟨h1, h2, h4, h5⟩

/-! ### C5: untracked files are never written -/

/-- The destination paths a run of `backup_game_files` is allowed to
write: for the plugins category, the exact destination file of a
configured identifier; for the stats category, a destination file whose
name matches some configured identifier's glob pattern. -/
def allowedDest (backup_type : String) (ids : List String) (p : Path) : Prop :=
  if backup_type = "plugins" then ∃ a ∈ ids, p = pluginDst a
  else ∃ a ∈ ids, ∃ nm, globNameMatch a nm = true ∧ p = bpStats ++ [nm]

theorem plugFold_frame (sp : Path) (l : List (String × String)) (st : BState) (p : Path)
    (hp : ∀ e ∈ l, p ≠ pluginDst e.1) :
    lookupP (plugFold sp l st).fs.files p = lookupP st.fs.files p := by
  induction l generalizing st with
  | nil => rfl
  | cons e rest ih =>
    rw [plugFold_cons]
    rcases pluginsStep_char sp st e with ⟨_, hstep⟩ | ⟨_, _, _, hstep⟩ | ⟨_, r, _, hstep⟩
    · rw [hstep, ih _ (fun g hg => hp g (List.mem_cons_of_mem _ hg))]
    · rw [hstep, ih _ (fun g hg => hp g (List.mem_cons_of_mem _ hg))]
    · rw [hstep, ih _ (fun g hg => hp g (List.mem_cons_of_mem _ hg))]
      show lookupP (st.fs.copy2 _ _).files p = _
      rw [copy2_lookup, if_neg (hp e (List.mem_cons_self _ _))]

theorem statsInner_frame (b g : String) (ms : List Path) (st : BState) (p : Path)
    (hp : ∀ nm, globNameMatch b nm = true → p ≠ bpStats ++ [nm])
    (hnm : ∀ q ∈ ms, globNameMatch b (bn q) = true) :
    lookupP (ms.foldl (statsFileStep bpStats b g) st).fs.files p
      = lookupP st.fs.files p := by
  induction ms generalizing st with
  | nil => rfl
  | cons q rest ih =>
    rw [innerFold_cons]
    rcases statsFileStep_char b g st q with ⟨r, hsb, hstep⟩ | hstep
    · rw [hstep, ih _ (fun q2 hq2 => hnm q2 (List.mem_cons_of_mem _ hq2))]
      show lookupP (st.fs.copy2 _ _).files p = _
      rw [copy2_lookup, if_neg (hp (bn q) (hnm q (List.mem_cons_self _ _)))]
    · rw [hstep, ih _ (fun q2 hq2 => hnm q2 (List.mem_cons_of_mem _ hq2))]

theorem statsFold_frame (sp : Path) (l : List (String × String)) (st : BState) (p : Path)
    (hp : ∀ e ∈ l, ∀ nm, globNameMatch e.1 nm = true → p ≠ bpStats ++ [nm]) :
    lookupP (statsFold sp l st).fs.files p = lookupP st.fs.files p := by
  induction l generalizing st with
  | nil => rfl
  | cons e rest ih =>
    rw [statsFold_cons, ih _ (fun g hg => hp g (List.mem_cons_of_mem _ hg)),
      statsStep_def]
    exact statsInner_frame e.1 e.2 _ st p (hp e (List.mem_cons_self _ _))
      (fun q hq => (globList_sub hq).2.2.2)

theorem backup_game_files_plugins_empty (fs : FS) (sp : Path)
    (hex : fs.pathExists (pluginFolder sp) = true) :
    backup_game_files fs sp [] "plugins" = ⟨fs, true, [], [], []⟩ := by
  unfold backup_game_files
  have hpf : (if ("plugins" == "plugins") = true then sp ++ ["config", "stplug-in"]
      else sp ++ ["appcache", "stats"]) = pluginFolder sp := by
    simp [pluginFolder]
  rw [hpf]
  simp [hex]

/-- C5: a run of either category never writes any destination path that
does not match a configured identifier's pattern — the content stored at
every other path is exactly what it was before the run.  (The backup-tree
flatness hypothesis restricts to filesystems where `shutil.copy2` writes
the named destination instead of copying into a directory.) -/
theorem backup_untracked_frame (fs : FS) (sp : Path) (dict : List (String × String))
    (backup_type : String) (_hbf : BFlat fs) (p : Path)
    (hp : ¬ allowedDest backup_type (dict.map (fun e => e.1)) p) :
    lookupP (backup_game_files fs sp dict backup_type).fs.files p
      = lookupP fs.files p := by
  by_cases hbt : backup_type = "plugins"
  · subst hbt
    have hp2 : ∀ e ∈ dict, p ≠ pluginDst e.1 := by
      intro e he hpe
      apply hp
      rw [allowedDest, if_pos rfl]
      exact ⟨e.1, List.mem_map.2 ⟨e, he, rfl⟩, hpe⟩
    cases hex : fs.pathExists (pluginFolder sp) with
    | false =>
      rw [backup_game_files_plugins_no_source fs sp dict hex]
    | true =>
      cases hd : dict with
      | nil =>
        rw [backup_game_files_plugins_empty fs sp hex]
      | cons d0 drest =>
        rw [← hd]
        have hne : dict ≠ [] := by
          rw [hd]
          exact fun hc => by cases hc
        rw [backup_game_files_plugins_run fs sp dict hex hne]
        exact plugFold_frame sp dict ⟨fs, [], [], []⟩ p hp2
  · have hbt2 : (backup_type == "plugins") = false := by
      cases h : (backup_type == "plugins") with
      | false => rfl
      | true => exact absurd (eq_of_beq h) hbt
    have hp2 : ∀ e ∈ dict, ∀ nm, globNameMatch e.1 nm = true → p ≠ bpStats ++ [nm] := by
      intro e he nm hnm hpe
      apply hp
      rw [allowedDest, if_neg hbt]
      exact ⟨e.1, List.mem_map.2 ⟨e, he, rfl⟩, nm, hnm, hpe⟩
    cases hex : fs.pathExists (statsFolder sp) with
    | false =>
      rw [backup_game_files_else_no_source fs sp dict backup_type hbt2 hex]
    | true =>
      cases hd : dict with
      | nil =>
        rw [backup_game_files_else_empty fs sp backup_type hbt2 hex]
      | cons d0 drest =>
        rw [← hd]
        have hne : dict ≠ [] := by
          rw [hd]
          exact fun hc => by cases hc
        rw [backup_game_files_else_run fs sp dict backup_type hbt2 hex hne]
        exact statsFold_frame sp dict ⟨fs, [], [], []⟩ p hp2

/-- C5 witness: concrete plugins and stats runs leave an untracked
identifier's destination path (and an unrelated path) untouched. -/
theorem backup_untracked_frame_witness :
    lookupP (backup_game_files ⟨[(["st", "config", "stplug-in", "10.lua"], [1])]⟩
        ["st"] [("10", "A")] "plugins").fs.files
      ["backup", "config", "stplug-in", "99.lua"] = none ∧
    lookupP (backup_game_files ⟨[(["st", "appcache", "stats", "10_stats.bin"], [1])]⟩
        ["st"] [("10", "G")] "stats").fs.files
      ["backup", "appcache", "stats", "unrelated.bin"] = none := by
  have hnp : ¬ allowedDest "plugins" ((([("10", "A")] : List (String × String))).map
      (fun e => e.1)) ["backup", "config", "stplug-in", "99.lua"] := by
    unfold allowedDest
    rw [if_pos rfl]
    rintro ⟨a, ha, hpe⟩
    have ha2 : a = "10" := by simpa using ha
    subst ha2
    revert hpe
    decide
  have hns : ¬ allowedDest "stats" ((([("10", "G")] : List (String × String))).map
      (fun e => e.1)) ["backup", "appcache", "stats", "unrelated.bin"] := by
    unfold allowedDest
    rw [if_neg (by decide)]
    rintro ⟨a, ha, nm, hnm, hpe⟩
    have hnm2 : nm = "unrelated.bin" := by
      have h2 : (["backup", "appcache", "stats", "unrelated.bin"] : Path)
          = ["backup", "appcache", "stats", nm] := hpe
      simpa using h2.symm
    subst hnm2
    have ha2 : a = "10" := by simpa using ha
    subst ha2
    revert hnm
    decide
  constructor
  · rw [backup_untracked_frame ⟨[(["st", "config", "stplug-in", "10.lua"], [1])]⟩
      ["st"] [("10", "A")] "plugins" (by unfold BFlat; decide)
      ["backup", "config", "stplug-in", "99.lua"] hnp]
    decide
  · rw [backup_untracked_frame ⟨[(["st", "appcache", "stats", "10_stats.bin"], [1])]⟩
      ["st"] [("10", "G")] "stats" (by unfold BFlat; decide)
      ["backup", "appcache", "stats", "unrelated.bin"] hns]
    decide

/-! ### C10: save_config frame condition -/

/-- C10: with no cloud settings argument, the persisted document keeps
exactly the loaded `cloud_backup` object and replaces only `steam_path`
and `appids`; with a settings argument, only the keys present in it are
overwritten inside `cloud_backup` and all other keys keep their loaded
values. -/
theorem save_config_frame (stored : Option ConfigDoc) (sp : String)
    (ap : List (String × String)) :
    ((save_config stored sp ap none).cloud_backup = (load_config stored).cloud_backup ∧
     (save_config stored sp ap none).steam_path = some sp ∧
     (save_config stored sp ap none).appids = some (.asMap ap)) ∧
    (∀ cs, ∃ base, (load_config stored).cloud_backup = some base ∧
      ∃ res, (save_config stored sp ap (some cs)).cloud_backup = some res ∧
        (save_config stored sp ap (some cs)).steam_path = some sp ∧
        (save_config stored sp ap (some cs)).appids = some (.asMap ap) ∧
        (cs.enabled = none → res.enabled = base.enabled) ∧
        (∀ v, cs.enabled = some v → res.enabled = some v) ∧
        (cs.auto_upload = none → res.auto_upload = base.auto_upload) ∧
        (∀ v, cs.auto_upload = some v → res.auto_upload = some v) ∧
        (cs.remote_name = none → res.remote_name = base.remote_name) ∧
        (∀ v, cs.remote_name = some v → res.remote_name = some v) ∧
        (cs.remote_path = none → res.remote_path = base.remote_path) ∧
        (∀ v, cs.remote_path = some v → res.remote_path = some v)) := by
  obtain ⟨base, hbase⟩ := load_cloud_backup_isSome stored
  constructor
  · exact ⟨rfl, rfl, rfl⟩
  · intro cs
    refine ⟨base, hbase, ?_⟩
    by_cases hemp : cloudIsEmptyDict cs = true
    · obtain ⟨h1, h2, h3, h4⟩ := cloudIsEmptyDict_eq_true hemp
      refine ⟨base, ?_, ?_, ?_, ?_, ?_, ?_, ?_, ?_, ?_, ?_, ?_⟩
      · simp only [save_config, hemp, if_pos rfl]
        show (load_config stored).cloud_backup = some base
        exact hbase
      · simp [save_config, hemp]
      · simp [save_config, hemp]
      · intro _; rfl
      · intro v hv; rw [h1] at hv; cases hv
      · intro _; rfl
      · intro v hv; rw [h2] at hv; cases hv
      · intro _; rfl
      · intro v hv; rw [h3] at hv; cases hv
      · intro _; rfl
      · intro v hv; rw [h4] at hv; cases hv
    · refine ⟨cloudUpdate base cs, ?_, ?_, ?_, ?_, ?_, ?_, ?_, ?_, ?_, ?_, ?_⟩
      · simp only [save_config, hemp, if_neg]
        simp [hbase]
      · simp [save_config, hemp]
      · simp [save_config, hemp]
      · intro h; simp [cloudUpdate, h, orD]
      · intro v hv; simp [cloudUpdate, hv, orD]
      · intro h; simp [cloudUpdate, h, orD]
      · intro v hv; simp [cloudUpdate, hv, orD]
      · intro h; simp [cloudUpdate, h, orD]
      · intro v hv; simp [cloudUpdate, hv, orD]
      · intro h; simp [cloudUpdate, h, orD]
      · intro v hv; simp [cloudUpdate, hv, orD]

/-- C10 witness: saving over an empty store with a settings dict
containing only `enabled` keeps the loaded default for `auto_upload` and
overwrites `enabled`. -/
theorem save_config_frame_witness :
    ∃ res, (save_config none "S" [("1", "G")]
        (some ⟨some false, none, none, none⟩)).cloud_backup = some res ∧
      res.enabled = some false ∧ res.auto_upload = some false := by
  obtain ⟨base, hbase, res, hres, hsp, hap, he1, he2, ha1, ha2, hr1, hr2, hp1, hp2⟩ :=
    (save_config_frame none "S" [("1", "G")]).2 ⟨some false, none, none, none⟩
  have hb : base = default_cloud := by
    have hd : (load_config none).cloud_backup = some default_cloud := rfl
    rw [hd] at hbase
    injection hbase with hb2
    exact hb2.symm
  refine ⟨res, hres, he2 false rfl, ?_⟩
  rw [ha1 rfl, hb]
  rfl

end Upstalua
